import Mathlib

/-!
Verification of the media-indexing core of the rk-media-server repository
(the NestJS service in media.service.ts), via a shallow embedding.

Modelling conventions:
* Filesystem paths are represented at the segment level: a path is an
  `FsPath` with an `absolute` flag and a list of name segments, where a
  segment is any string (the separator character never occurs inside a
  segment produced by the OS).  An absolute path's segments are counted
  from the filesystem root.  JS path functions (path.normalize,
  path.resolve, path.dirname, path.basename, path.join, path.isAbsolute)
  are embedded as segment-level operations with POSIX semantics.
* The filesystem is a finite tree of nodes.  A node carries the flags the
  service's syscalls observe: statOk models a failing stat/statSync call
  on that node, readable models a failing readdir.  The ffprobe call and
  fs.promises.writeFile are modelled as functions of the target path
  bundled in Fsys (probe returns the parsed duration in seconds on
  success, none on any invocation failure or missing duration field).
* The two TypeORM repositories are modelled as a pure DB record holding
  the persisted libraries and items; findOne(where) is List.find?, save
  of a batch is list append, remove follows the declared cascade of the
  MediaLibrary entity (deleting a library deletes its items).
* NestJS exceptions are modelled by the SvcError type; a service method
  returning a promise that can reject with such an exception becomes a
  function into Except SvcError.
-/

/-- Error taxonomy of the service: BadRequestException, ConflictException,
NotFoundException, ForbiddenException as thrown by media.service.ts. -/
inductive SvcError where
  | badRequest
  | conflict
  | notFound
  | forbidden
  deriving DecidableEq, Repr

/-- Segment-level embedding of a JS path string: the absolute flag records
a leading separator, segments are the separator-split components (may
contain ".", "..", or empty strings before normalization). -/
structure FsPath where
  absolute : Bool
  segs : List String
  deriving DecidableEq, Repr

/-- Predicate for a segment that survives path normalization unchanged:
not empty, not ".", not "..". -/
def cleanSeg (s : String) : Bool :=
  !(s = "" || s = "." || s = "..")

/-- Core of JS path.normalize at segment level.  The accumulator holds the
output segments in reverse.  A ".." segment pops a preceding clean
segment; at the top it is kept for relative paths and dropped (clamped at
the root) for absolute paths, exactly as path.posix.normalize does. -/
def normCore (absolute : Bool) : List String → List String → List String
  | acc, [] => acc.reverse
  | acc, s :: rest =>
    if s = "" || s = "." then
      normCore absolute acc rest
    else if s = ".." then
      match acc with
      | [] => normCore absolute (if absolute then [] else [".."]) rest
      | a :: as =>
        if a = ".." then normCore absolute (".." :: a :: as) rest
        else normCore absolute as rest
    else
      normCore absolute (s :: acc) rest

/-- Embedding of JS path.normalize on a relative or absolute path. -/
def normalizePath (p : FsPath) : FsPath :=
  { absolute := p.absolute, segs := normCore p.absolute [] p.segs }

/-- Normalization of an absolute segment list (".." clamps at the root). -/
def normAbs (segs : List String) : List String :=
  normCore true [] segs

/-- Embedding of JS path.resolve(base, p) where base is an already
normalized absolute path: an absolute p is taken by itself, a relative p
is appended to base; the result is normalized absolute segments. -/
def resolve (base : List String) (p : FsPath) : List String :=
  if p.absolute then normAbs p.segs else normAbs (base ++ p.segs)

/-- Embedding of the path-traversal sanitization step of
processUploadedFiles (media.service.ts lines 364-366):
path.normalize(relativePath).replace of the leading (../)+ group by the
empty string.  On the normalized string form the regex strips exactly the
maximal run of leading ".." segments of a relative path; an absolute
path's string starts with the separator, so the regex never matches. -/
def sanitizeRelPath (p : FsPath) : FsPath :=
  let n := normalizePath p
  if n.absolute then n
  else { absolute := false, segs := n.segs.dropWhile (fun s => s = "..") }

/-- Embedding of JS path.basename at segment level (last segment, or the
empty string for the root). -/
def basenameOf (segs : List String) : String :=
  (segs.getLast?).getD ""

/-- Boolean prefix test on segment lists: startsWith base p holds when p
lies inside the directory tree rooted at base (base itself included). -/
def startsWith : List String → List String → Bool
  | [], _ => true
  | _ :: _, [] => false
  | a :: as, b :: bs => a = b && startsWith as bs

/-- Truncation toward zero, as JS computes the remainder operator on
numbers (for the nonnegative durations of the service this is the
floor). -/
def jsTrunc (q : ℚ) : Int :=
  if q < 0 then Int.ceil q else Int.floor q

/-- Embedding of the JS remainder a % m on numbers (truncated division
remainder). -/
def jsMod (a m : ℚ) : ℚ :=
  a - m * (jsTrunc (a / m) : ℚ)

/-- Embedding of JS String.prototype.padStart(2, the zero digit) applied
to the decimal rendering of an integer. -/
def padTwo (n : Int) : String :=
  let s := toString n
  if s.length < 2 then "0" ++ s else s

/-- Embedding of MediaService.secondsToHMS (media.service.ts lines
335-342): floor division into hours, minutes, seconds, each zero-padded
to two digits and joined by colons. -/
def secondsToHMS (totalSeconds : ℚ) : String :=
  let hours := Int.floor (totalSeconds / 3600)
  let minutes := Int.floor (jsMod totalSeconds 3600 / 60)
  let seconds := Int.floor (jsMod totalSeconds 60)
  padTwo hours ++ ":" ++ padTwo minutes ++ ":" ++ padTwo seconds

example : sanitizeRelPath ⟨false, ["..", "..", "a", "..", "b.mp4"]⟩ =
    ⟨false, ["b.mp4"]⟩ := by decide
example : resolve ["m"] (sanitizeRelPath ⟨false, ["..", "..", "x.mp4"]⟩) =
    ["m", "x.mp4"] := by decide
example : resolve ["m"] ⟨true, ["etc", "x.mp4"]⟩ = ["etc", "x.mp4"] := by decide

/-! ## Filesystem model -/

mutual
/-- Finite filesystem tree.  statOk models whether a stat call on the node
succeeds (the service stats each entry during traversal and skips it on
failure); readable models whether readdir on a directory succeeds. -/
inductive FsNode where
  | file (statOk : Bool) (size : Nat)
  | dir (statOk : Bool) (readable : Bool) (children : FsEntries)

/-- Named children of a directory, in readdir order. -/
inductive FsEntries where
  | nil
  | cons (name : String) (node : FsNode) (rest : FsEntries)
end

/-- Lookup of a directory entry by name. -/
def FsEntries.lookupName : FsEntries → String → Option FsNode
  | .nil, _ => none
  | .cons nm nd rest, s => if nm = s then some nd else rest.lookupName s

/-- Conversion of the children of a directory to an association list. -/
def FsEntries.toList : FsEntries → List (String × FsNode)
  | .nil => []
  | .cons nm nd rest => (nm, nd) :: rest.toList

/-- Child of a node under a given name (none for file nodes). -/
def childNode (n : FsNode) (s : String) : Option FsNode :=
  match n with
  | .file _ _ => none
  | .dir _ _ cs => cs.lookupName s

/-- Resolution of an absolute segment path to the node it denotes. -/
def lookupPath (n : FsNode) : List String → Option FsNode
  | [] => some n
  | s :: rest =>
    match childNode n s with
    | none => none
    | some c => lookupPath c rest

/-- Test for a directory node. -/
def isDirNode : FsNode → Bool
  | .dir _ _ _ => true
  | .file _ _ => false

/-- Test for a file node. -/
def isFileNode : FsNode → Bool
  | .file _ _ => true
  | .dir _ _ _ => false

/-- statOk flag of a node. -/
def statOkOf : FsNode → Bool
  | .file ok _ => ok
  | .dir ok _ _ => ok

/-- Embedding of the combined check fs.existsSync(p) &&
fs.statSync(p).isDirectory() used throughout the service. -/
def isExistingDirB (root : FsNode) (p : List String) : Bool :=
  match lookupPath root p with
  | some n => isDirNode n
  | none => false

/-- Embedding of fs.existsSync alone. -/
def existsSyncB (root : FsNode) (p : List String) : Bool :=
  (lookupPath root p).isSome

/-- Filesystem plus the two effectful per-path capabilities the service
uses: the external ffprobe invocation (some parsed duration in seconds on
success, none on any failure or missing duration field) and the success
of fs.promises.writeFile at a path. -/
structure Fsys where
  root : FsNode
  probe : List String → Option ℚ
  writeOk : List String → Bool

/-- Worker for the loop of MediaService.findExistingDir (media.service.ts
lines 77-93), carrying the current path with its segments reversed so
that stepping to the parent (path.dirname, which drops the last segment)
is structural recursion: return the current path when it is an existing
directory, otherwise continue from the parent; at the root (no segments
left) the parent equals the path and the loop breaks with null. -/
def findRev (root : FsNode) : List String → Option (List String)
  | [] => if isExistingDirB root [] then some [] else none
  | s :: rest =>
    if isExistingDirB root (s :: rest).reverse then some (s :: rest).reverse
    else findRev root rest

/-- The upward loop of MediaService.findExistingDir on an already
resolved absolute path. -/
def findExistingDirFrom (root : FsNode) (p : List String) : Option (List String) :=
  findRev root p.reverse

/-- Embedding of MediaService.findExistingDir (lines 74-96): the method
first applies path.resolve to its start path, then runs the upward
loop. -/
def findExistingDir (root : FsNode) (startPath : List String) : Option (List String) :=
  findExistingDirFrom root (normAbs startPath)

/-- The finite ancestor chain of an absolute path: the path itself, its
parent, and so on down to the filesystem root (see ancestors_step for the
characteristic recurrence). -/
def ancestors (p : List String) : List (List String) :=
  (List.tails p.reverse).map List.reverse

/-- Embedding of the MediaService constructor (lines 50-67): the desired
base directory comes from the MEDIA_SUBDIR configuration value with
fallback to the relative path Media, is resolved against the working
directory when relative, and the nearest existing ancestor directory is
located; if none exists the constructor throws and the service is never
built. -/
def initMediaService (root : FsNode) (cwd : List String) (mediaSubdir : Option FsPath) :
    Except String (List String) :=
  let desired := mediaSubdir.getD ⟨false, ["Media"]⟩
  let userSpecifiedPath : List String :=
    if desired.absolute then desired.segs else normAbs (cwd ++ desired.segs)
  match findExistingDir root userSpecifiedPath with
  | some d => .ok d
  | none => .error "No valid base directory found"

instance {ε α : Type} [DecidableEq ε] [DecidableEq α] : DecidableEq (Except ε α) :=
  fun a b =>
    match a, b with
    | .error x, .error y =>
      if h : x = y then isTrue (by rw [h]) else isFalse (fun hc => h (by cases hc; rfl))
    | .ok x, .ok y =>
      if h : x = y then isTrue (by rw [h]) else isFalse (fun hc => h (by cases hc; rfl))
    | .error _, .ok _ => isFalse (fun hc => by cases hc)
    | .ok _, .error _ => isFalse (fun hc => by cases hc)

/-! ## Data model (the two TypeORM repositories as a pure record) -/

/-- Persisted MediaLibrary row (media-library.entity.ts). -/
structure Library where
  id : Nat
  name : String
  path : List String
  deriving DecidableEq, Repr

/-- Persisted MediaItem row (media-item.entity.ts); the library relation
is flattened to the owning library id. -/
structure Item where
  filename : String
  filepath : List String
  size : Nat
  duration : Option String
  libraryId : Nat
  deriving DecidableEq, Repr

/-- The persistent store: all libraries and all items. -/
structure DB where
  libraries : List Library
  items : List Item
  deriving DecidableEq, Repr

/-! ## Service operations -/

/-- Embedding of MediaService.createLibrary (lines 99-139).  The
sanitize-filename dependency is abstracted as the function parameter san;
newId stands for the id the store generates for the saved row. -/
def createLibrary (san : String → String) (root : FsNode) (base : List String) (db : DB)
    (newId : Nat) (name : String) (pathStr : FsPath) : Except SvcError (DB × Library) :=
  if san name ≠ name then .error .badRequest
  else
    match db.libraries.find? (fun l => l.name = san name) with
    | some _ => .error .conflict
    | none =>
      let absolutePath := resolve base pathStr
      if isExistingDirB root absolutePath then
        let lib : Library := { id := newId, name := san name, path := absolutePath }
        .ok ({ db with libraries := db.libraries ++ [lib] }, lib)
      else .error .notFound

/-- Embedding of MediaService.deleteLibrary (lines 147-155): find the
library by id, throw NotFound when absent, otherwise remove the row; per
the cascade declared on the MediaLibrary entity the owned items are
removed with it. -/
def deleteLibrary (db : DB) (id : Nat) : Except SvcError DB :=
  match db.libraries.find? (fun l => l.id = id) with
  | none => .error .notFound
  | some _ =>
    .ok { libraries := db.libraries.eraseP (fun l => l.id = id),
          items := db.items.filter (fun it => !(it.libraryId = id)) }

/-- The fixed list of supported media extensions (lines 34-40). -/
def supportedExtensions : List String :=
  [".mp4", ".mkv", ".avi", ".mov", ".flv"]

/-- Embedding of JS path.extname on an entry name: the suffix starting at
the last dot, empty when there is no dot or the only dot is leading. -/
def extname (s : String) : String :=
  let cs := s.data
  let len := cs.length
  let k := cs.reverse.indexOf '.'
  if len ≤ k then ""
  else
    let pos := len - 1 - k
    if pos = 0 then "" else String.mk (cs.drop pos)

/-- Character-by-character lower casing (extensionally String.toLower,
written over the character list so that it evaluates in the kernel). -/
def lowerStr (s : String) : String :=
  String.mk (s.data.map Char.toLower)

/-- Classification of an entry name as supported media:
supportedExtensions.includes(path.extname(name).toLowerCase()). -/
def supportedB (name : String) : Bool :=
  supportedExtensions.contains (lowerStr (extname name))

example : supportedB "Movie.MP4" = true := by decide
example : supportedB "movie.txt" = false := by decide
example : extname "a.tar.gz" = ".gz" := by decide
example : extname ".bashrc" = "" := by decide

mutual
/-- Embedding of the recursive traverseDirectory closure of
MediaService.scanLibrary (lines 169-224) applied to a directory node: a
failing readdir is logged and yields nothing. -/
def traverseNode (db : DB) (fsys : Fsys) (libId : Nat) (dirPath : List String) :
    FsNode → List Item
  | .file _ _ => []
  | .dir _ readable cs =>
    if readable then traverseEntries db fsys libId dirPath cs else []

/-- The per-entry loop of traverseDirectory: stat each entry (skip on
failure), recurse into directories, and for supported files not yet
persisted under the exact filepath probe a duration and build the new
item. -/
def traverseEntries (db : DB) (fsys : Fsys) (libId : Nat) (dirPath : List String) :
    FsEntries → List Item
  | .nil => []
  | .cons name child rest =>
    (if statOkOf child then
      match child with
      | .dir _ _ _ => traverseNode db fsys libId (dirPath ++ [name]) child
      | .file _ size =>
        if supportedB name then
          match db.items.find? (fun it => it.filepath = dirPath ++ [name]) with
          | some _ => []
          | none =>
            [{ filename := name,
               filepath := dirPath ++ [name],
               size := size,
               duration := (fsys.probe (dirPath ++ [name])).map secondsToHMS,
               libraryId := libId }]
        else []
    else []) ++ traverseEntries db fsys libId dirPath rest
end

mutual
/-- All supported-media file paths in a subtree, ignoring the failure
flags (a superset of what a scan can ever index there). -/
def supportedIn (dirPath : List String) : FsNode → List (List String)
  | .file _ _ => []
  | .dir _ _ cs => supportedInEntries dirPath cs

/-- Per-entry part of supportedIn. -/
def supportedInEntries (dirPath : List String) : FsEntries → List (List String)
  | .nil => []
  | .cons name child rest =>
    (match child with
     | .file _ _ => if supportedB name then [dirPath ++ [name]] else []
     | .dir _ _ _ => supportedIn (dirPath ++ [name]) child) ++
      supportedInEntries dirPath rest
end

/-- Embedding of MediaService.scanLibrary (lines 158-236): find the
library (NotFound when absent), walk its root directory accumulating new
items, then persist the batch in one write when nonempty.  The returned
list is the persisted batch; an empty batch means no write occurred. -/
def scanLibrary (fsys : Fsys) (db : DB) (libraryId : Nat) :
    Except SvcError (DB × List Item) :=
  match db.libraries.find? (fun l => l.id = libraryId) with
  | none => .error .notFound
  | some library =>
    let newItems :=
      match lookupPath fsys.root library.path with
      | some node => traverseNode db fsys library.id library.path node
      | none => []
    .ok (if newItems.isEmpty then db else { db with items := db.items ++ newItems },
         newItems)

/-- Result entry of getSubdirectories (the DirectoryNode interface of
media.service.ts). -/
structure DirectoryNode where
  name : String
  path : FsPath
  isDir : Bool
  deriving DecidableEq, Repr

/-- Embedding of MediaService.getSubdirectories (lines 242-274): resolve
the requested path against the base directory, fail NotFound unless it is
an existing directory, fail Forbidden when readdir is denied, otherwise
list the child directories with paths joined onto the requested (possibly
relative) path. -/
def getSubdirectories (fsys : Fsys) (base : List String) (currentPath : FsPath) :
    Except SvcError (List DirectoryNode) :=
  let absolutePath := resolve base currentPath
  match lookupPath fsys.root absolutePath with
  | some (.dir _ readable cs) =>
    if readable then
      .ok (((cs.toList.filter (fun e => isDirNode e.2)).map
        (fun e => { name := e.1,
                    path := ⟨currentPath.absolute, currentPath.segs ++ [e.1]⟩,
                    isDir := true })))
    else .error .forbidden
  | _ => .error .notFound

/-- Result entry of getScannableMovies. -/
structure MovieEntry where
  name : String
  path : FsPath
  size : Nat
  deriving DecidableEq, Repr

/-- Embedding of MediaService.getScannableMovies (lines 280-332): same
directory checks as getSubdirectories, then the supported plain files of
the directory with their sizes (a failing statSync is logged and the size
reported as 0). -/
def getScannableMovies (fsys : Fsys) (base : List String) (directoryPath : FsPath) :
    Except SvcError (List MovieEntry) :=
  let absolutePath := resolve base directoryPath
  match lookupPath fsys.root absolutePath with
  | some (.dir _ readable cs) =>
    if readable then
      .ok ((cs.toList.filter (fun e => isFileNode e.2 && supportedB e.1)).map
        (fun e =>
          let filePath : FsPath := ⟨directoryPath.absolute, directoryPath.segs ++ [e.1]⟩
          let absoluteFilePath := resolve base filePath
          let sz :=
            match lookupPath fsys.root absoluteFilePath with
            | some (.file true n) => n
            | _ => 0
          { name := e.1, path := filePath, size := sz }))
    else .error .forbidden
  | _ => .error .notFound

/-- One uploaded multipart file as the service reads it: the
client-supplied filename (a path when a directory is uploaded), the name
field used for the stored display filename, and the byte size. -/
structure UploadFile where
  filename : FsPath
  name : List String
  size : Nat
  deriving DecidableEq, Repr

/-- Embedding of the per-file loop body of
MediaService.processUploadedFiles (lines 359-431): sanitize the supplied
path (path.normalize plus stripping of the leading (../)+ run), resolve
it against the base directory, skip the file when an item with that exact
filepath is already persisted, fall back to the nearest existing ancestor
directory when the target directory is missing (skipping the file when
none exists), write the bytes (skip on failure), probe the duration
(tolerating failure), and produce the new item.  The skipped outcomes are
none; the write target and the stored filepath are the same variable in
the source, so the produced item's filepath is exactly the written
path. -/
def processOneFile (fsys : Fsys) (base : List String) (db : DB) (libId : Nat)
    (f : UploadFile) : Option Item :=
  let relativePath := sanitizeRelPath f.filename
  let absoluteFilePath := resolve base relativePath
  match db.items.find? (fun it => it.filepath = absoluteFilePath) with
  | some _ => none
  | none =>
    let fileDir := absoluteFilePath.dropLast
    let target? :=
      if existsSyncB fsys.root fileDir then some absoluteFilePath
      else
        match findExistingDir fsys.root fileDir with
        | some fallbackDir => some (fallbackDir ++ [basenameOf absoluteFilePath])
        | none => none
    match target? with
    | none => none
    | some target =>
      if fsys.writeOk target then
        some { filename := basenameOf f.name,
               filepath := target,
               size := f.size,
               duration := (fsys.probe target).map secondsToHMS,
               libraryId := libId }
      else none

/-- Embedding of MediaService.processUploadedFiles (lines 348-442): find
the library (NotFound when absent), process each file independently
(the per-file dedup check consults only the persisted items, not the
batch being accumulated), then persist the whole batch in one write when
nonempty. -/
def processUploadedFiles (fsys : Fsys) (base : List String) (db : DB)
    (files : List UploadFile) (libraryId : Nat) : Except SvcError (DB × List Item) :=
  match db.libraries.find? (fun l => l.id = libraryId) with
  | none => .error .notFound
  | some library =>
    let mediaItems := files.filterMap (processOneFile fsys base db library.id)
    .ok (if mediaItems.isEmpty then db else { db with items := db.items ++ mediaItems },
         mediaItems)

/-! ## Concrete fixtures used by witnesses and counterexamples -/

/-- Tiny filesystem: the root holds directory m, which holds directory
lib, which holds the file a.mp4 of 100 bytes, and directory etc. -/
def demoRoot : FsNode :=
  .dir true true
    (.cons "m"
      (.dir true true
        (.cons "lib" (.dir true true (.cons "a.mp4" (.file true 100) .nil)) .nil))
      (.cons "etc" (.dir true true .nil) .nil))

/-- Fsys over demoRoot where every probe fails and every write succeeds. -/
def demoFsys : Fsys :=
  { root := demoRoot, probe := fun _ => none, writeOk := fun _ => true }

/-- One registered library rooted at /m/lib. -/
def demoLib : Library := { id := 1, name := "Movies", path := ["m", "lib"] }

/-- Store holding just demoLib and no items. -/
def demoDB : DB := { libraries := [demoLib], items := [] }

/-- The item a scan of demoLib discovers. -/
def demoItem : Item :=
  { filename := "a.mp4", filepath := ["m", "lib", "a.mp4"], size := 100,
    duration := none, libraryId := 1 }

/-- Filesystem whose only entry is an unreadable directory m holding a
supported file. -/
def lockedRoot : FsNode :=
  .dir true true
    (.cons "m" (.dir true false (.cons "a.mp4" (.file true 100) .nil)) .nil)

/-- Fsys over lockedRoot. -/
def lockedFsys : Fsys :=
  { root := lockedRoot, probe := fun _ => none, writeOk := fun _ => true }

/-- Library rooted at the unreadable /m. -/
def lockedLib : Library := { id := 1, name := "Movies", path := ["m"] }

/-- Store holding just lockedLib. -/
def lockedDB : DB := { libraries := [lockedLib], items := [] }

example : scanLibrary demoFsys demoDB 1 =
    .ok ({ demoDB with items := [demoItem] }, [demoItem]) := by decide
example : scanLibrary demoFsys { demoDB with items := [demoItem] } 1 =
    .ok ({ demoDB with items := [demoItem] }, []) := by decide
example : scanLibrary lockedFsys lockedDB 1 = .ok (lockedDB, []) := by decide
example : createLibrary (fun s => s) demoRoot ["m"] { libraries := [], items := [] }
    7 "Movies" ⟨false, ["nope"]⟩ = .error .notFound := by decide
example : findExistingDir demoRoot ["m", "lib", "missing", "x"] = some ["m", "lib"] := by
  decide
example : getSubdirectories demoFsys ["m"] ⟨false, ["lib", "a.mp4"]⟩ =
    .error .notFound := by decide
example : getScannableMovies lockedFsys [] ⟨false, ["m"]⟩ = .error .forbidden := by decide
example :
    processUploadedFiles demoFsys ["m"] demoDB
      [⟨⟨false, ["a.mp4"]⟩, ["a.mp4"], 5⟩, ⟨⟨false, ["a.mp4"]⟩, ["a.mp4"], 5⟩] 1 =
    .ok ({ demoDB with items :=
            [⟨"a.mp4", ["m", "a.mp4"], 5, none, 1⟩, ⟨"a.mp4", ["m", "a.mp4"], 5, none, 1⟩] },
         [⟨"a.mp4", ["m", "a.mp4"], 5, none, 1⟩, ⟨"a.mp4", ["m", "a.mp4"], 5, none, 1⟩]) := by
  decide
example :
    processOneFile demoFsys ["m"] { libraries := [demoLib], items := [] } 1
      ⟨⟨true, ["etc", "x.mp4"]⟩, ["x.mp4"], 5⟩ =
    some ⟨"x.mp4", ["etc", "x.mp4"], 5, none, 1⟩ := by decide
example :
    processOneFile demoFsys ["m"] { libraries := [demoLib], items := [] } 1
      ⟨⟨false, ["..", "..", "..", "x.mp4"]⟩, ["x.mp4"], 5⟩ =
    some ⟨"x.mp4", ["m", "x.mp4"], 5, none, 1⟩ := by decide

/-! ## Lemmas about path normalization -/

/-- Invariant of the normalization accumulator of a relative path: the
segments already emitted are a run of clean segments below a run of ".."
segments (the accumulator is reversed output). -/
def accOk (acc : List String) : Prop :=
  ∃ C D, acc = C ++ D ∧ (∀ s ∈ C, cleanSeg s = true) ∧ (∀ s ∈ D, s = "..")

theorem normCore_nil (b : Bool) (acc : List String) :
    normCore b acc [] = acc.reverse := rfl

theorem normCore_cons (b : Bool) (acc : List String) (s : String) (rest : List String) :
    normCore b acc (s :: rest) =
      if s = "" || s = "." then normCore b acc rest
      else if s = ".." then
        match acc with
        | [] => normCore b (if b then [] else [".."]) rest
        | a :: as => if a = ".." then normCore b (".." :: a :: as) rest
                     else normCore b as rest
      else normCore b (s :: acc) rest := rfl

theorem normCore_dd_nil (b : Bool) (rest : List String) :
    normCore b [] (".." :: rest) = normCore b (if b then [] else [".."]) rest := rfl

theorem normCore_dd_cons (b : Bool) (a : String) (as rest : List String) :
    normCore b (a :: as) (".." :: rest) =
      if a = ".." then normCore b (".." :: a :: as) rest
      else normCore b as rest := rfl

theorem normCore_rel_shape :
    ∀ (segs acc : List String), accOk acc →
      ∃ dots cleans, normCore false acc segs = dots ++ cleans ∧
        (∀ s ∈ dots, s = "..") ∧ (∀ s ∈ cleans, cleanSeg s = true) := by
  intro segs
  induction segs with
  | nil =>
    intro acc hacc
    obtain ⟨C, D, rfl, hC, hD⟩ := hacc
    refine ⟨D.reverse, C.reverse, by simp [normCore_nil], ?_, ?_⟩
    · intro s hs; exact hD s (List.mem_reverse.mp hs)
    · intro s hs; exact hC s (List.mem_reverse.mp hs)
  | cons s rest ih =>
    intro acc hacc
    obtain ⟨C, D, hacc_eq, hC, hD⟩ := hacc
    by_cases hs1 : s = "" ∨ s = "."
    · rw [normCore_cons, if_pos (by rcases hs1 with h | h <;> simp [h])]
      exact ih acc ⟨C, D, hacc_eq, hC, hD⟩
    · push_neg at hs1
      by_cases hs2 : s = ".."
      · subst hs2
        cases hacc2 : acc with
        | nil =>
          rw [normCore_dd_nil]
          exact ih _ ⟨[], [".."], by simp, by simp, by simp⟩
        | cons a as =>
          rw [normCore_dd_cons]
          rw [hacc2] at hacc_eq
          by_cases ha : a = ".."
          · rw [if_pos ha]
            have haccD : ∀ x ∈ a :: as, x = ".." := by
              cases C with
              | nil =>
                intro x hx
                exact hD x (by rw [List.nil_append] at hacc_eq; rw [← hacc_eq]; exact hx)
              | cons c cs =>
                exfalso
                have hc : a = c := by simpa using congrArg (fun l => l.head?) hacc_eq
                have := hC c (by simp)
                rw [← hc, ha] at this
                simp [cleanSeg] at this
            refine ih (".." :: a :: as) ⟨[], ".." :: a :: as, rfl, by simp, ?_⟩
            intro x hx
            rcases List.mem_cons.mp hx with rfl | hx2
            · rfl
            · exact haccD x hx2
          · rw [if_neg ha]
            have hCcons : ∃ cs, C = a :: cs ∧ as = cs ++ D := by
              cases C with
              | nil =>
                exfalso
                rw [List.nil_append] at hacc_eq
                have : a ∈ D := by rw [← hacc_eq]; simp
                exact ha (hD a this)
              | cons c cs =>
                have hc : a = c := by simpa using congrArg (fun l => l.head?) hacc_eq
                have ht : as = cs ++ D := by simpa using congrArg List.tail hacc_eq
                exact ⟨cs, by rw [hc], ht⟩
            obtain ⟨cs, hCeq, hAs⟩ := hCcons
            refine ih as ⟨cs, D, hAs, ?_, hD⟩
            intro x hx
            exact hC x (by rw [hCeq]; simp [hx])
      · rw [normCore_cons, if_neg (by simp [hs1.1, hs1.2]), if_neg hs2]
        have hclean : cleanSeg s = true := by simp [cleanSeg, hs1.1, hs1.2, hs2]
        refine ih (s :: acc) ⟨s :: C, D, by rw [hacc_eq]; simp, ?_, hD⟩
        intro x hx
        rcases List.mem_cons.mp hx with rfl | hx2
        · exact hclean
        · exact hC x hx2

theorem normCore_abs_clean :
    ∀ (segs acc : List String), (∀ s ∈ acc, cleanSeg s = true) →
      ∀ s ∈ normCore true acc segs, cleanSeg s = true := by
  intro segs
  induction segs with
  | nil =>
    intro acc hacc s hs
    rw [normCore_nil] at hs
    exact hacc s (List.mem_reverse.mp hs)
  | cons s rest ih =>
    intro acc hacc x hx
    by_cases hs1 : s = "" ∨ s = "."
    · rw [normCore_cons, if_pos (by rcases hs1 with h | h <;> simp [h])] at hx
      exact ih acc hacc x hx
    · push_neg at hs1
      by_cases hs2 : s = ".."
      · subst hs2
        cases hacc2 : acc with
        | nil =>
          rw [hacc2, normCore_dd_nil] at hx
          exact ih _ (by simp) x hx
        | cons a as =>
          have ha : ¬ a = ".." := by
            intro haEq
            have := hacc a (by rw [hacc2]; simp)
            rw [haEq] at this
            simp [cleanSeg] at this
          rw [hacc2, normCore_dd_cons, if_neg ha] at hx
          refine ih as ?_ x hx
          intro y hy
          exact hacc y (by rw [hacc2]; simp [hy])
      · have hclean : cleanSeg s = true := by simp [cleanSeg, hs1.1, hs1.2, hs2]
        rw [normCore_cons, if_neg (by simp [hs1.1, hs1.2]), if_neg hs2] at hx
        refine ih (s :: acc) ?_ x hx
        intro y hy
        rcases List.mem_cons.mp hy with rfl | hy2
        · exact hclean
        · exact hacc y hy2

theorem normCore_clean_id (b : Bool) :
    ∀ (segs acc : List String), (∀ s ∈ segs, cleanSeg s = true) →
      normCore b acc segs = acc.reverse ++ segs := by
  intro segs
  induction segs with
  | nil => intro acc _; simp [normCore_nil]
  | cons s rest ih =>
    intro acc hsegs
    have hclean : cleanSeg s = true := hsegs s (by simp)
    have h1 : ¬ s = "" := by
      intro h; rw [h] at hclean; simp [cleanSeg] at hclean
    have h2 : ¬ s = "." := by
      intro h; rw [h] at hclean; simp [cleanSeg] at hclean
    have h3 : ¬ s = ".." := by
      intro h; rw [h] at hclean; simp [cleanSeg] at hclean
    rw [normCore_cons, if_neg (by simp [h1, h2]), if_neg h3,
      ih (s :: acc) (fun y hy => hsegs y (by simp [hy]))]
    simp

/-- Dropping the leading ".." run of a dots-then-cleans list leaves
exactly the clean part. -/
theorem dropWhile_dots (dots cleans : List String)
    (hdots : ∀ s ∈ dots, s = "..") (hcleans : ∀ s ∈ cleans, cleanSeg s = true) :
    (dots ++ cleans).dropWhile (fun s => s = "..") = cleans := by
  induction dots with
  | nil =>
    cases cleans with
    | nil => rfl
    | cons c cs =>
      have := hcleans c (by simp)
      have hc : ¬ c = ".." := by
        intro h; rw [h] at this; simp [cleanSeg] at this
      simp [List.dropWhile_cons, hc]
  | cons d ds ih =>
    have hd : d = ".." := hdots d (by simp)
    rw [List.cons_append, List.dropWhile_cons, if_pos (by simp [hd])]
    exact ih (fun s hs => hdots s (by simp [hs]))

/-- The sanitization step of the upload path leaves only clean segments
on a relative input: path.normalize pushes every surviving ".." to the
front and the replace step removes exactly that run. -/
theorem sanitizeRelPath_clean (p : FsPath) (hrel : p.absolute = false) :
    ∀ s ∈ (sanitizeRelPath p).segs, cleanSeg s = true := by
  obtain ⟨dots, cleans, heq, hdots, hcleans⟩ :=
    normCore_rel_shape p.segs [] ⟨[], [], rfl, by simp, by simp⟩
  intro s hs
  rw [sanitizeRelPath, normalizePath] at hs
  simp only [hrel] at hs
  rw [if_neg (by simp)] at hs
  simp only at hs
  rw [heq, dropWhile_dots dots cleans hdots hcleans] at hs
  exact hcleans s hs

/-- The sanitized relative path stays relative. -/
theorem sanitizeRelPath_rel (p : FsPath) (hrel : p.absolute = false) :
    (sanitizeRelPath p).absolute = false := by
  rw [sanitizeRelPath, normalizePath]
  simp [hrel]

/-- Resolving a path whose segments are all clean against a clean base
just appends the segments. -/
theorem resolve_clean (base : List String) (p : FsPath)
    (hbase : ∀ s ∈ base, cleanSeg s = true)
    (hrel : p.absolute = false)
    (hsegs : ∀ s ∈ p.segs, cleanSeg s = true) :
    resolve base p = base ++ p.segs := by
  rw [resolve, if_neg (by simp [hrel]), normAbs, normCore_clean_id]
  · simp
  · intro s hs
    rcases List.mem_append.mp hs with h | h
    · exact hbase s h
    · exact hsegs s h

/-! ## Lemmas about the prefix test -/

theorem startsWith_append (base t : List String) :
    startsWith base (base ++ t) = true := by
  induction base with
  | nil => rfl
  | cons a as ih => simp [startsWith, ih]

theorem startsWith_refl (base : List String) : startsWith base base = true := by
  have := startsWith_append base []
  simpa using this

theorem startsWith_iff (base p : List String) :
    startsWith base p = true ↔ ∃ t, p = base ++ t := by
  constructor
  · intro h
    induction base generalizing p with
    | nil => exact ⟨p, rfl⟩
    | cons a as ih =>
      cases p with
      | nil => simp [startsWith] at h
      | cons b bs =>
        simp only [startsWith, Bool.and_eq_true, decide_eq_true_eq] at h
        obtain ⟨t, ht⟩ := ih bs h.2
        exact ⟨t, by rw [h.1, ht]; rfl⟩
  · rintro ⟨t, rfl⟩
    exact startsWith_append base t

theorem startsWith_concat (base p : List String) (x : String)
    (h : startsWith base p = true) : startsWith base (p ++ [x]) = true := by
  obtain ⟨t, rfl⟩ := (startsWith_iff base p).mp h
  rw [List.append_assoc]
  exact startsWith_append base (t ++ [x])

theorem startsWith_dropLast (base q : List String)
    (h : startsWith base q = true) (hne : q ≠ base) :
    startsWith base q.dropLast = true := by
  obtain ⟨t, rfl⟩ := (startsWith_iff base q).mp h
  cases t with
  | nil => exact absurd (by simp) hne
  | cons x xs =>
    rw [List.dropLast_append_of_ne_nil base (by simp)]
    exact (startsWith_iff base _).mpr ⟨(x :: xs).dropLast, rfl⟩

/-! ## Lemmas about filesystem lookups and the upward directory search -/

theorem normAbs_clean_id (p : List String) (h : ∀ s ∈ p, cleanSeg s = true) :
    normAbs p = p := by
  rw [normAbs, normCore_clean_id true p [] h]
  simp

theorem lookupPath_append_isSome (root : FsNode) (xs ys : List String)
    (h : (lookupPath root (xs ++ ys)).isSome = true) :
    (lookupPath root xs).isSome = true := by
  induction xs generalizing root with
  | nil => simp [lookupPath]
  | cons x xs2 ih =>
    rw [List.cons_append, lookupPath] at h
    rw [lookupPath]
    cases hc : childNode root x with
    | none => rw [hc] at h; simp at h
    | some c => rw [hc] at h; exact ih c h

theorem lookupPath_dropLast_isSome (root : FsNode) (p : List String)
    (h : (lookupPath root p).isSome = true) :
    (lookupPath root p.dropLast).isSome = true := by
  cases p using List.reverseRecOn with
  | nil => simpa using h
  | append_singleton l x =>
    rw [List.dropLast_concat]
    exact lookupPath_append_isSome root l [x] h

/-- Unrolling of the upward-search loop: test the current path, then
recurse on the parent unless the root has been reached. -/
theorem findExistingDirFrom_step (root : FsNode) (q : List String) :
    findExistingDirFrom root q =
      if isExistingDirB root q then some q
      else if q = [] then none else findExistingDirFrom root q.dropLast := by
  cases q using List.reverseRecOn with
  | nil =>
    simp only [findExistingDirFrom, List.reverse_nil, findRev]
    by_cases h : isExistingDirB root [] <;> simp [h]
  | append_singleton l x =>
    simp only [findExistingDirFrom, List.reverse_append, List.reverse_cons,
      List.reverse_nil, List.nil_append, List.singleton_append, findRev,
      List.reverse_reverse, List.dropLast_concat]
    by_cases h : isExistingDirB root (l ++ [x]) <;> simp [h]

theorem findRev_eq_find (root : FsNode) :
    ∀ l : List String,
      findRev root l = ((List.tails l).map List.reverse).find?
        (fun q => isExistingDirB root q) := by
  intro l
  induction l with
  | nil =>
    simp only [findRev, List.tails, List.map, List.find?]
    by_cases h : isExistingDirB root [] <;> simp [h]
  | cons x xs ih =>
    by_cases h : isExistingDirB root (x :: xs).reverse <;>
      simp only [findRev, List.tails_cons, List.map_cons, List.find?_cons, h, ih,
        if_true, if_false, Bool.false_eq_true, if_neg, cond_true, cond_false]

/-- The upward search is exactly the first existing directory on the
finite ancestor chain of the (resolved) start path. -/
theorem findExistingDir_eq_chain (root : FsNode) (startPath : List String) :
    findExistingDir root startPath =
      (ancestors (normAbs startPath)).find? (fun q => isExistingDirB root q) := by
  rw [findExistingDir, findExistingDirFrom, ancestors, findRev_eq_find]

theorem ancestors_nil : ancestors ([] : List String) = [[]] := rfl

/-- The ancestor chain steps from a nonempty path to its parent. -/
theorem ancestors_step (p : List String) (h : p ≠ []) :
    ancestors p = p :: ancestors p.dropLast := by
  cases p using List.reverseRecOn with
  | nil => exact absurd rfl h
  | append_singleton l x =>
    simp only [ancestors, List.reverse_append, List.reverse_cons, List.reverse_nil,
      List.nil_append, List.singleton_append, List.tails_cons, List.map,
      List.reverse_reverse, List.dropLast_concat]

/-- The upward search started inside the tree of an existing directory
stays inside that tree: the first existing ancestor of a path below base
is still below (or equal to) base, because base itself is on the chain
and is an existing directory. -/
theorem findExistingDirFrom_inside (root : FsNode) (base : List String)
    (hbase : isExistingDirB root base = true) :
    ∀ q fb, startsWith base q = true → findExistingDirFrom root q = some fb →
      startsWith base fb = true := by
  have main : ∀ n q fb, q.length ≤ n → startsWith base q = true →
      findExistingDirFrom root q = some fb → startsWith base fb = true := by
    intro n
    induction n with
    | zero =>
      intro q fb hlen hsw hfind
      have hq : q = [] := List.eq_nil_of_length_eq_zero (Nat.le_zero.mp hlen)
      subst hq
      have hbnil : base = [] := by
        cases base with
        | nil => rfl
        | cons b bs => simp [startsWith] at hsw
      rw [findExistingDirFrom_step] at hfind
      by_cases hex : isExistingDirB root []
      · rw [if_pos hex] at hfind
        cases hfind
        exact hsw
      · rw [if_neg hex, if_pos rfl] at hfind
        cases hfind
    | succ n ih =>
      intro q fb hlen hsw hfind
      rw [findExistingDirFrom_step] at hfind
      by_cases hex : isExistingDirB root q
      · rw [if_pos hex] at hfind
        cases hfind
        exact hsw
      · rw [if_neg hex] at hfind
        by_cases hq : q = []
        · rw [if_pos hq] at hfind
          cases hfind
        · rw [if_neg hq] at hfind
          have hqb : q ≠ base := by
            intro h; rw [h] at hex; exact hex hbase
          refine ih q.dropLast fb ?_ (startsWith_dropLast base q hsw hqb) hfind
          have : q.length ≤ n + 1 := hlen
          have hpos : 0 < q.length := List.length_pos.mpr hq
          rw [List.length_dropLast]
          omega
  intro q fb
  exact main q.length q fb (le_refl _)

/-! ## Well-formed filesystems and traversal lemmas -/

/-- Names of the children of a directory, in order. -/
def namesOf : FsEntries → List String
  | .nil => []
  | .cons nm _ rest => nm :: namesOf rest

mutual
/-- Well-formedness of a filesystem tree: sibling names are pairwise
distinct (as they are in a real directory). -/
def wfNode : FsNode → Bool
  | .file _ _ => true
  | .dir _ _ cs => wfEntries cs

/-- Well-formedness of a children list. -/
def wfEntries : FsEntries → Bool
  | .nil => true
  | .cons nm child rest =>
    !((namesOf rest).contains nm) && wfNode child && wfEntries rest
end


theorem wfNode_dir_eq (st rd : Bool) (cs : FsEntries) :
    wfNode (.dir st rd cs) = wfEntries cs := rfl

theorem wfEntries_cons_eq (nm : String) (child : FsNode) (rest : FsEntries) :
    wfEntries (.cons nm child rest) =
      (!((namesOf rest).contains nm) && wfNode child && wfEntries rest) := rfl

theorem wfEntries_cons_parts (nm : String) (child : FsNode) (rest : FsEntries)
    (h : wfEntries (.cons nm child rest) = true) :
    (namesOf rest).contains nm = false ∧ wfNode child = true ∧ wfEntries rest = true := by
  rw [wfEntries_cons_eq] at h
  simp only [Bool.and_eq_true, Bool.not_eq_true'] at h
  exact ⟨h.1.1, h.1.2, h.2⟩

theorem lookupName_wf (cs : FsEntries) (s : String) (c : FsNode)
    (hwf : wfEntries cs = true) (hfind : cs.lookupName s = some c) : wfNode c = true :=
  match cs with
  | .nil => by simp [FsEntries.lookupName] at hfind
  | .cons nm child rest => by
    obtain ⟨_, hchild, hrest⟩ := wfEntries_cons_parts nm child rest hwf
    rw [FsEntries.lookupName] at hfind
    by_cases hnm : nm = s
    · rw [if_pos hnm] at hfind
      cases hfind
      exact hchild
    · rw [if_neg hnm] at hfind
      exact lookupName_wf rest s c hrest hfind

theorem lookupPath_wf (root : FsNode) (p : List String) (n : FsNode)
    (hroot : wfNode root = true) (hlook : lookupPath root p = some n) :
    wfNode n = true := by
  induction p generalizing root with
  | nil => rw [lookupPath] at hlook; cases hlook; exact hroot
  | cons x xs ih =>
    rw [lookupPath] at hlook
    cases hc : childNode root x with
    | none => rw [hc] at hlook; simp at hlook
    | some c =>
      rw [hc] at hlook
      refine ih c ?_ hlook
      cases root with
      | file st sz => simp [childNode] at hc
      | dir st rd cs =>
        rw [childNode] at hc
        exact lookupName_wf cs x c (by rw [wfNode_dir_eq] at hroot; exact hroot) hc

/-! Unfolding equations of the mutually recursive traversal functions,
stated per constructor so that they hold by definitional unfolding. -/

theorem traverseNode_file (db : DB) (fsys : Fsys) (libId : Nat)
    (dirPath : List String) (st : Bool) (sz : Nat) :
    traverseNode db fsys libId dirPath (.file st sz) = [] := rfl

theorem traverseNode_dir (db : DB) (fsys : Fsys) (libId : Nat)
    (dirPath : List String) (st rd : Bool) (cs : FsEntries) :
    traverseNode db fsys libId dirPath (.dir st rd cs) =
      if rd then traverseEntries db fsys libId dirPath cs else [] := rfl

theorem traverseEntries_nil (db : DB) (fsys : Fsys) (libId : Nat)
    (dirPath : List String) :
    traverseEntries db fsys libId dirPath .nil = [] := rfl

theorem traverseEntries_cons_file (db : DB) (fsys : Fsys) (libId : Nat)
    (dirPath : List String) (name : String) (st : Bool) (sz : Nat) (rest : FsEntries) :
    traverseEntries db fsys libId dirPath (.cons name (.file st sz) rest) =
      (if st then
        (if supportedB name then
          match db.items.find? (fun it => it.filepath = dirPath ++ [name]) with
          | some _ => []
          | none =>
            [{ filename := name,
               filepath := dirPath ++ [name],
               size := sz,
               duration := (fsys.probe (dirPath ++ [name])).map secondsToHMS,
               libraryId := libId }]
         else [])
       else []) ++ traverseEntries db fsys libId dirPath rest := rfl

theorem traverseEntries_cons_dir (db : DB) (fsys : Fsys) (libId : Nat)
    (dirPath : List String) (name : String) (st rd : Bool) (cs2 : FsEntries)
    (rest : FsEntries) :
    traverseEntries db fsys libId dirPath (.cons name (.dir st rd cs2) rest) =
      (if st then traverseNode db fsys libId (dirPath ++ [name]) (.dir st rd cs2)
       else []) ++ traverseEntries db fsys libId dirPath rest := rfl

theorem supportedIn_file (dirPath : List String) (st : Bool) (sz : Nat) :
    supportedIn dirPath (.file st sz) = [] := rfl

theorem supportedIn_dir (dirPath : List String) (st rd : Bool) (cs : FsEntries) :
    supportedIn dirPath (.dir st rd cs) = supportedInEntries dirPath cs := rfl

theorem supportedInEntries_nil (dirPath : List String) :
    supportedInEntries dirPath .nil = [] := rfl

theorem supportedInEntries_cons_file (dirPath : List String) (name : String)
    (st : Bool) (sz : Nat) (rest : FsEntries) :
    supportedInEntries dirPath (.cons name (.file st sz) rest) =
      (if supportedB name then [dirPath ++ [name]] else []) ++
        supportedInEntries dirPath rest := rfl

theorem supportedInEntries_cons_dir (dirPath : List String) (name : String)
    (st rd : Bool) (cs2 rest : FsEntries) :
    supportedInEntries dirPath (.cons name (.dir st rd cs2) rest) =
      supportedIn (dirPath ++ [name]) (.dir st rd cs2) ++
        supportedInEntries dirPath rest := rfl

mutual
/-- A scan of a subtree whose supported files are all persisted finds
nothing new. -/
theorem traverseNode_empty (db : DB) (fsys : Fsys) (libId : Nat)
    (dirPath : List String) (node : FsNode)
    (h : ∀ p ∈ supportedIn dirPath node, ∃ it ∈ db.items, it.filepath = p) :
    traverseNode db fsys libId dirPath node = [] :=
  match node with
  | .file _ _ => rfl
  | .dir st readable cs => by
    rw [traverseNode_dir]
    by_cases hr : readable = true
    · rw [if_pos hr]
      exact traverseEntries_empty db fsys libId dirPath cs
        (fun p hp => h p (by rw [supportedIn_dir]; exact hp))
    · rw [if_neg hr]

/-- Per-entry part of traverseNode_empty. -/
theorem traverseEntries_empty (db : DB) (fsys : Fsys) (libId : Nat)
    (dirPath : List String) (cs : FsEntries)
    (h : ∀ p ∈ supportedInEntries dirPath cs, ∃ it ∈ db.items, it.filepath = p) :
    traverseEntries db fsys libId dirPath cs = [] :=
  match cs with
  | .nil => rfl
  | .cons name (.file fst fsz) rest => by
    rw [traverseEntries_cons_file]
    have hrest : traverseEntries db fsys libId dirPath rest = [] :=
      traverseEntries_empty db fsys libId dirPath rest
        (fun p hp => h p (by
          rw [supportedInEntries_cons_file]
          exact List.mem_append.mpr (Or.inr hp)))
    rw [hrest, List.append_nil]
    by_cases hst : fst = true
    · rw [if_pos hst]
      by_cases hsup : supportedB name = true
      · rw [if_pos hsup]
        obtain ⟨it, hit, hfp⟩ := h (dirPath ++ [name]) (by
          rw [supportedInEntries_cons_file]
          refine List.mem_append.mpr (Or.inl ?_)
          rw [if_pos hsup]
          simp)
        cases hfind : db.items.find? (fun it2 => it2.filepath = dirPath ++ [name]) with
        | some w => rfl
        | none =>
          exfalso
          have := List.find?_eq_none.mp hfind it hit
          simp only [decide_eq_true_eq] at this
          exact this hfp
      · rw [if_neg hsup]
    · rw [if_neg hst]
  | .cons name (.dir dst drd dcs) rest => by
    rw [traverseEntries_cons_dir]
    have hrest : traverseEntries db fsys libId dirPath rest = [] :=
      traverseEntries_empty db fsys libId dirPath rest
        (fun p hp => h p (by
          rw [supportedInEntries_cons_dir]
          exact List.mem_append.mpr (Or.inr hp)))
    rw [hrest, List.append_nil]
    by_cases hst : dst = true
    · rw [if_pos hst]
      exact traverseNode_empty db fsys libId (dirPath ++ [name]) (.dir dst drd dcs)
        (fun p hp => h p (by
          rw [supportedInEntries_cons_dir]
          exact List.mem_append.mpr (Or.inl hp)))
    · rw [if_neg hst]
end

mutual
/-- Every item a subtree scan produces has its filepath strictly below
the directory being walked. -/
theorem traverseNode_paths (db : DB) (fsys : Fsys) (libId : Nat)
    (dirPath : List String) (node : FsNode) :
    ∀ it ∈ traverseNode db fsys libId dirPath node,
      ∃ r, r ≠ [] ∧ it.filepath = dirPath ++ r :=
  match node with
  | .file fst fsz => by
    intro it hit
    rw [traverseNode_file] at hit
    simp at hit
  | .dir st readable cs => by
    intro it hit
    rw [traverseNode_dir] at hit
    by_cases hr : readable = true
    · rw [if_pos hr] at hit
      obtain ⟨nm, r, _, hfp⟩ := traverseEntries_paths db fsys libId dirPath cs it hit
      exact ⟨nm :: r, by simp, hfp⟩
    · rw [if_neg hr] at hit
      simp at hit

/-- Per-entry version: the produced filepath extends the directory by the
name of the entry it came from. -/
theorem traverseEntries_paths (db : DB) (fsys : Fsys) (libId : Nat)
    (dirPath : List String) (cs : FsEntries) :
    ∀ it ∈ traverseEntries db fsys libId dirPath cs,
      ∃ nm r, nm ∈ namesOf cs ∧ it.filepath = dirPath ++ nm :: r :=
  match cs with
  | .nil => by
    intro it hit
    rw [traverseEntries_nil] at hit
    simp at hit
  | .cons name (.file fst fsz) rest => by
    intro it hit
    rw [traverseEntries_cons_file] at hit
    rcases List.mem_append.mp hit with hl | hr2
    · by_cases hst : fst = true
      · rw [if_pos hst] at hl
        by_cases hsup : supportedB name = true
        · rw [if_pos hsup] at hl
          cases hfind : db.items.find? (fun it2 => it2.filepath = dirPath ++ [name]) with
          | some w => rw [hfind] at hl; simp at hl
          | none =>
            rw [hfind] at hl
            have hq : it = ⟨name, dirPath ++ [name], fsz,
                (fsys.probe (dirPath ++ [name])).map secondsToHMS, libId⟩ := by
              simpa using hl
            refine ⟨name, [], by rw [namesOf]; simp, ?_⟩
            rw [hq]
        · rw [if_neg hsup] at hl
          simp at hl
      · rw [if_neg hst] at hl
        simp at hl
    · obtain ⟨nm, r, hnm, hfp⟩ := traverseEntries_paths db fsys libId dirPath rest it hr2
      exact ⟨nm, r, by rw [namesOf]; exact List.mem_cons.mpr (Or.inr hnm), hfp⟩
  | .cons name (.dir dst drd dcs) rest => by
    intro it hit
    rw [traverseEntries_cons_dir] at hit
    rcases List.mem_append.mp hit with hl | hr2
    · by_cases hst : dst = true
      · rw [if_pos hst] at hl
        obtain ⟨r, hrne, hfp⟩ :=
          traverseNode_paths db fsys libId (dirPath ++ [name]) (.dir dst drd dcs) it hl
        refine ⟨name, r, by rw [namesOf]; simp, ?_⟩
        rw [hfp, List.append_assoc]
        rfl
      · rw [if_neg hst] at hl
        simp at hl
    · obtain ⟨nm, r, hnm, hfp⟩ := traverseEntries_paths db fsys libId dirPath rest it hr2
      exact ⟨nm, r, by rw [namesOf]; exact List.mem_cons.mpr (Or.inr hnm), hfp⟩
end

mutual
/-- On a well-formed filesystem the filepaths of the items produced by a
subtree scan are pairwise distinct. -/
theorem traverseNode_nodup (db : DB) (fsys : Fsys) (libId : Nat)
    (dirPath : List String) (node : FsNode) (hwf : wfNode node = true) :
    ((traverseNode db fsys libId dirPath node).map (fun it => it.filepath)).Nodup :=
  match node with
  | .file fst fsz => by rw [traverseNode_file]; simp
  | .dir st rd cs => by
    rw [traverseNode_dir]
    by_cases hr : rd = true
    · rw [if_pos hr]
      exact traverseEntries_nodup db fsys libId dirPath cs
        (by rw [wfNode_dir_eq] at hwf; exact hwf)
    · rw [if_neg hr]; simp

/-- Per-entry part of traverseNode_nodup. -/
theorem traverseEntries_nodup (db : DB) (fsys : Fsys) (libId : Nat)
    (dirPath : List String) (cs : FsEntries) (hwf : wfEntries cs = true) :
    ((traverseEntries db fsys libId dirPath cs).map (fun it => it.filepath)).Nodup :=
  match cs with
  | .nil => by rw [traverseEntries_nil]; simp
  | .cons name (.file fst fsz) rest => by
    obtain ⟨hname, hchild, hrest⟩ := wfEntries_cons_parts _ _ _ hwf
    rw [traverseEntries_cons_file, List.map_append, List.nodup_append]
    refine ⟨?_, traverseEntries_nodup db fsys libId dirPath rest hrest, ?_⟩
    · by_cases hst : fst = true
      · rw [if_pos hst]
        by_cases hsup : supportedB name = true
        · rw [if_pos hsup]
          cases hfind : db.items.find? (fun it2 => it2.filepath = dirPath ++ [name]) <;>
            simp
        · rw [if_neg hsup]; simp
      · rw [if_neg hst]; simp
    · intro a ha hb
      simp only [List.mem_map] at ha hb
      obtain ⟨it1, hit1, hfp1⟩ := ha
      obtain ⟨it2, hit2, hfp2⟩ := hb
      have h1 : it1.filepath = dirPath ++ [name] := by
        by_cases hst : fst = true
        · rw [if_pos hst] at hit1
          by_cases hsup : supportedB name = true
          · rw [if_pos hsup] at hit1
            cases hfind : db.items.find? (fun w => w.filepath = dirPath ++ [name]) with
            | some w => rw [hfind] at hit1; simp at hit1
            | none =>
              rw [hfind] at hit1
              have : it1 = ⟨name, dirPath ++ [name], fsz,
                  (fsys.probe (dirPath ++ [name])).map secondsToHMS, libId⟩ := by
                simpa using hit1
              rw [this]
          · rw [if_neg hsup] at hit1; simp at hit1
        · rw [if_neg hst] at hit1; simp at hit1
      obtain ⟨nm, r, hnm, hfp⟩ := traverseEntries_paths db fsys libId dirPath rest it2 hit2
      have : dirPath ++ [name] = dirPath ++ nm :: r := by
        rw [← h1, hfp1, ← hfp, hfp2]
      have hname_eq : name = nm := by
        have h2 := List.append_cancel_left this
        simp only [List.cons.injEq] at h2
        exact h2.1
      have hmem : name ∉ namesOf rest := by simpa using hname
      exact hmem (hname_eq ▸ hnm)
  | .cons name (.dir dst drd dcs) rest => by
    obtain ⟨hname, hchild, hrest⟩ := wfEntries_cons_parts _ _ _ hwf
    rw [traverseEntries_cons_dir, List.map_append, List.nodup_append]
    refine ⟨?_, traverseEntries_nodup db fsys libId dirPath rest hrest, ?_⟩
    · by_cases hst : dst = true
      · rw [if_pos hst]
        exact traverseNode_nodup db fsys libId (dirPath ++ [name]) (.dir dst drd dcs) hchild
      · rw [if_neg hst]; simp
    · intro a ha hb
      simp only [List.mem_map] at ha hb
      obtain ⟨it1, hit1, hfp1⟩ := ha
      obtain ⟨it2, hit2, hfp2⟩ := hb
      by_cases hst : dst = true
      · rw [if_pos hst] at hit1
        obtain ⟨r1, hr1ne, hfp1b⟩ :=
          traverseNode_paths db fsys libId (dirPath ++ [name]) (.dir dst drd dcs) it1 hit1
        obtain ⟨nm, r, hnm, hfp⟩ := traverseEntries_paths db fsys libId dirPath rest it2 hit2
        have : dirPath ++ name :: r1 = dirPath ++ nm :: r := by
          have hx : (dirPath ++ [name]) ++ r1 = dirPath ++ name :: r1 := by
            rw [List.append_assoc]; rfl
          rw [← hx, ← hfp1b, hfp1, ← hfp, hfp2]
        have hname_eq : name = nm := by
          have h2 := List.append_cancel_left this
          simp only [List.cons.injEq] at h2
          exact h2.1
        have hmem : name ∉ namesOf rest := by simpa using hname
        exact hmem (hname_eq ▸ hnm)
      · rw [if_neg hst] at hit1; simp at hit1
end

mutual
/-- Every item a subtree scan produces is fresh: no persisted item shares
its filepath (the find-before-insert check). -/
theorem traverseNode_fresh (db : DB) (fsys : Fsys) (libId : Nat)
    (dirPath : List String) (node : FsNode) :
    ∀ it ∈ traverseNode db fsys libId dirPath node,
      ∀ it2 ∈ db.items, it2.filepath ≠ it.filepath :=
  match node with
  | .file fst fsz => by intro it hit; rw [traverseNode_file] at hit; simp at hit
  | .dir st rd cs => by
    intro it hit
    rw [traverseNode_dir] at hit
    by_cases hr : rd = true
    · rw [if_pos hr] at hit
      exact traverseEntries_fresh db fsys libId dirPath cs it hit
    · rw [if_neg hr] at hit; simp at hit

/-- Per-entry part of traverseNode_fresh. -/
theorem traverseEntries_fresh (db : DB) (fsys : Fsys) (libId : Nat)
    (dirPath : List String) (cs : FsEntries) :
    ∀ it ∈ traverseEntries db fsys libId dirPath cs,
      ∀ it2 ∈ db.items, it2.filepath ≠ it.filepath :=
  match cs with
  | .nil => by intro it hit; rw [traverseEntries_nil] at hit; simp at hit
  | .cons name (.file fst fsz) rest => by
    intro it hit
    rw [traverseEntries_cons_file] at hit
    rcases List.mem_append.mp hit with hl | hr2
    · by_cases hst : fst = true
      · rw [if_pos hst] at hl
        by_cases hsup : supportedB name = true
        · rw [if_pos hsup] at hl
          cases hfind : db.items.find? (fun it2 => it2.filepath = dirPath ++ [name]) with
          | some w => rw [hfind] at hl; simp at hl
          | none =>
            rw [hfind] at hl
            have hq : it = ⟨name, dirPath ++ [name], fsz,
                (fsys.probe (dirPath ++ [name])).map secondsToHMS, libId⟩ := by
              simpa using hl
            intro it2 hit2 heq
            have := List.find?_eq_none.mp hfind it2 hit2
            simp only [decide_eq_true_eq] at this
            exact this (by rw [heq, hq])
        · rw [if_neg hsup] at hl; simp at hl
      · rw [if_neg hst] at hl; simp at hl
    · exact traverseEntries_fresh db fsys libId dirPath rest it hr2
  | .cons name (.dir dst drd dcs) rest => by
    intro it hit
    rw [traverseEntries_cons_dir] at hit
    rcases List.mem_append.mp hit with hl | hr2
    · by_cases hst : dst = true
      · rw [if_pos hst] at hl
        exact traverseNode_fresh db fsys libId (dirPath ++ [name]) (.dir dst drd dcs) it hl
      · rw [if_neg hst] at hl; simp at hl
    · exact traverseEntries_fresh db fsys libId dirPath rest it hr2
end

/-- The supported-media file paths a scan of the given directory path
could ever index (empty when the path does not resolve to a node). -/
def supportedUnder (fsys : Fsys) (path : List String) : List (List String) :=
  match lookupPath fsys.root path with
  | some node => supportedIn path node
  | none => []

theorem length_filter_not_add_countP {α : Type} (p : α → Bool) (l : List α) :
    (l.filter (fun a => !(p a))).length + l.countP p = l.length := by
  induction l with
  | nil => simp
  | cons x xs ih =>
    by_cases h : p x = true <;>
      simp [List.filter_cons, List.countP_cons, h] <;> omega

theorem eraseP_eq_filter_of_nodup_ids (xs : List Library) (id : Nat)
    (h : (xs.map (fun l => l.id)).Nodup) :
    xs.eraseP (fun l => l.id = id) = xs.filter (fun l => !(l.id = id)) := by
  induction xs with
  | nil => rfl
  | cons x rest ih =>
    simp only [List.map_cons, List.nodup_cons] at h
    by_cases hx : x.id = id
    · have hall : ∀ a ∈ rest, (!(decide (a.id = id))) = true := by
        intro a ha
        simp only [Bool.not_eq_true', decide_eq_false_iff_not]
        intro haid
        exact h.1 (by rw [hx, ← haid]; exact List.mem_map.mpr ⟨a, ha, rfl⟩)
      simp [List.eraseP_cons, List.filter_cons, hx, List.filter_eq_self.mpr hall]
    · simp [List.eraseP_cons, List.filter_cons, hx, ih h.2]

theorem countP_id_eq_one (xs : List Library) (id : Nat) (lib : Library)
    (h : (xs.map (fun l => l.id)).Nodup) (hmem : lib ∈ xs) (hid : lib.id = id) :
    xs.countP (fun l => l.id = id) = 1 := by
  induction xs with
  | nil => cases hmem
  | cons x rest ih =>
    simp only [List.map_cons, List.nodup_cons] at h
    rcases List.mem_cons.mp hmem with rfl | hmem2
    · have h0 : rest.countP (fun l => decide (l.id = id)) = 0 := by
        rw [List.countP_eq_zero]
        intro a ha
        simp only [decide_eq_true_eq]
        intro haid
        exact h.1 (by rw [hid, ← haid]; exact List.mem_map.mpr ⟨a, ha, rfl⟩)
      rw [List.countP_cons]
      simp [h0, hid]
    · have hx : ¬ x.id = id := by
        intro hxid
        exact h.1 (by rw [hxid, ← hid]; exact List.mem_map.mpr ⟨lib, hmem2, rfl⟩)
      rw [List.countP_cons]
      simp [hx, ih h.2 hmem2]

/-! ## Claim theorems -/

/-- C8: for every starting path the base-directory resolver terminates:
its result equals the first existing directory on the finite ancestor
chain of the resolved start path (the chain steps by parent, reaching the
root where the parent equals the path, see the second and third
conjuncts), and when no ancestor is an existing directory the
constructor fails, so the service is never built. -/
theorem resolveBase_upward_chain :
    ∀ (root : FsNode) (cwd : List String) (cfg : Option FsPath) (p : List String),
      findExistingDir root p =
        (ancestors (normAbs p)).find? (fun q => isExistingDirB root q) ∧
      (p ≠ [] → ancestors p = p :: ancestors p.dropLast) ∧
      ancestors ([] : List String) = [[]] ∧
      ((∃ e, initMediaService root cwd cfg = .error e) ↔
        findExistingDir root
          (if (cfg.getD ⟨false, ["Media"]⟩).absolute then (cfg.getD ⟨false, ["Media"]⟩).segs
           else normAbs (cwd ++ (cfg.getD ⟨false, ["Media"]⟩).segs)) = none) := by
  intro root cwd cfg p
  refine ⟨findExistingDir_eq_chain root p, ancestors_step p, ancestors_nil, ?_⟩
  simp only [initMediaService]
  cases h : findExistingDir root
      (if (cfg.getD ⟨false, ["Media"]⟩).absolute then (cfg.getD ⟨false, ["Media"]⟩).segs
       else normAbs (cwd ++ (cfg.getD ⟨false, ["Media"]⟩).segs)) with
  | some d => simp [h]
  | none => simp [h]

/-- Witness for C8 at a concrete filesystem and path. -/
theorem resolveBase_upward_chain_witness :
    ancestors ["m", "lib"] = ["m", "lib"] :: ancestors ["m"] ∧
    findExistingDir demoRoot ["m", "lib", "missing"] =
      (ancestors (normAbs ["m", "lib", "missing"])).find?
        (fun q => isExistingDirB demoRoot q) :=
  ⟨(resolveBase_upward_chain demoRoot [] none ["m", "lib"]).2.1 (by decide),
   (resolveBase_upward_chain demoRoot [] none ["m", "lib", "missing"]).1⟩

/-- C10: both listing operations fail NotFound when the resolved target
is absent or is a plain file, and fail Forbidden when it is a directory
whose readdir is denied. -/
theorem listing_notfound_forbidden :
    ∀ (fsys : Fsys) (base : List String) (p : FsPath),
      ((lookupPath fsys.root (resolve base p) = none ∨
        ∃ st sz, lookupPath fsys.root (resolve base p) = some (.file st sz)) →
        getSubdirectories fsys base p = .error .notFound ∧
        getScannableMovies fsys base p = .error .notFound) ∧
      (∀ st cs, lookupPath fsys.root (resolve base p) = some (.dir st false cs) →
        getSubdirectories fsys base p = .error .forbidden ∧
        getScannableMovies fsys base p = .error .forbidden) := by
  intro fsys base p
  constructor
  · intro h
    rcases h with h | ⟨st, sz, h⟩ <;>
      exact ⟨by simp [getSubdirectories, h], by simp [getScannableMovies, h]⟩
  · intro st cs h
    exact ⟨by simp [getSubdirectories, h], by simp [getScannableMovies, h]⟩

/-- Witness for C10: a regular file as target gives NotFound, an
unreadable directory gives Forbidden, for both listings. -/
theorem listing_notfound_forbidden_witness :
    (getSubdirectories demoFsys ["m"] ⟨false, ["lib", "a.mp4"]⟩ = .error .notFound ∧
     getScannableMovies demoFsys ["m"] ⟨false, ["lib", "a.mp4"]⟩ = .error .notFound) ∧
    (getSubdirectories lockedFsys [] ⟨false, ["m"]⟩ = .error .forbidden ∧
     getScannableMovies lockedFsys [] ⟨false, ["m"]⟩ = .error .forbidden) :=
  ⟨(listing_notfound_forbidden demoFsys ["m"] ⟨false, ["lib", "a.mp4"]⟩).1
      (Or.inr ⟨true, 100, by rfl⟩),
   (listing_notfound_forbidden lockedFsys [] ⟨false, ["m"]⟩).2 true
      (.cons "a.mp4" (.file true 100) .nil) (by rfl)⟩

/-- C7 (amended): during scan and ingest every per-file failure (stat,
probe, directory read, disk write) is recovered locally, and the only
failure surfaced to the caller is NotFound for an unknown library id; in
particular an unreadable top-level directory is also recovered (see
scan_unreadable_root_not_surfaced), not surfaced. -/
theorem scan_ingest_only_notfound :
    ∀ (fsys : Fsys) (base : List String) (db : DB) (files : List UploadFile)
      (libId : Nat),
      ((∃ e, scanLibrary fsys db libId = .error e) ↔
        ∀ l ∈ db.libraries, l.id ≠ libId) ∧
      (∀ e, scanLibrary fsys db libId = .error e → e = .notFound) ∧
      ((∃ e, processUploadedFiles fsys base db files libId = .error e) ↔
        ∀ l ∈ db.libraries, l.id ≠ libId) ∧
      (∀ e, processUploadedFiles fsys base db files libId = .error e → e = .notFound) := by
  intro fsys base db files libId
  cases hfind : db.libraries.find? (fun l => l.id = libId) with
  | none =>
    have hall : ∀ l ∈ db.libraries, l.id ≠ libId := by
      intro l hl
      have := List.find?_eq_none.mp hfind l hl
      simpa using this
    have h1 : scanLibrary fsys db libId = .error .notFound := by
      rw [scanLibrary, hfind]
    have h2 : processUploadedFiles fsys base db files libId = .error .notFound := by
      rw [processUploadedFiles, hfind]
    refine ⟨⟨fun _ => hall, fun _ => ⟨.notFound, h1⟩⟩, ?_, ⟨fun _ => hall, fun _ => ⟨.notFound, h2⟩⟩, ?_⟩
    · intro e he
      rw [h1] at he
      injection he with h
      exact h.symm
    · intro e he
      rw [h2] at he
      injection he with h
      exact h.symm
  | some lib =>
    have hmem := List.mem_of_find?_eq_some hfind
    have hid : lib.id = libId := by simpa using List.find?_some hfind
    have h1 : ∃ res, scanLibrary fsys db libId = .ok res := by
      rw [scanLibrary, hfind]; exact ⟨_, rfl⟩
    have h2 : ∃ res, processUploadedFiles fsys base db files libId = .ok res := by
      rw [processUploadedFiles, hfind]; exact ⟨_, rfl⟩
    obtain ⟨res1, h1⟩ := h1
    obtain ⟨res2, h2⟩ := h2
    refine ⟨⟨?_, ?_⟩, ?_, ⟨?_, ?_⟩, ?_⟩
    · rintro ⟨e, he⟩; rw [h1] at he; cases he
    · intro hall; exact absurd hid (hall lib hmem)
    · intro e he; rw [h1] at he; cases he
    · rintro ⟨e, he⟩; rw [h2] at he; cases he
    · intro hall; exact absurd hid (hall lib hmem)
    · intro e he; rw [h2] at he; cases he

/-- Counterexample to C7 as stated: a library whose top-level directory
exists but cannot be read (readdir denied) and contains a supported file;
the scan surfaces no typed failure at all — it succeeds with an empty
batch — although the claim says an unreadable top-level directory is
surfaced to the caller. -/
theorem scan_unreadable_root_not_surfaced :
    scanLibrary lockedFsys lockedDB 1 = .ok (lockedDB, []) ∧
    lookupPath lockedFsys.root lockedLib.path =
      some (.dir true false (.cons "a.mp4" (.file true 100) .nil)) ∧
    supportedB "a.mp4" = true :=
  ⟨by decide, by rfl, by decide⟩

/-- Witness for C7 (amended) at concrete inputs: an unknown library id is
surfaced as an error, and with a known id no error occurs. -/
theorem scan_ingest_only_notfound_witness :
    (∃ e, scanLibrary demoFsys { libraries := [], items := [] } 5 = .error e) ∧
    ¬ (∃ e, scanLibrary demoFsys demoDB 1 = .error e) :=
  ⟨(scan_ingest_only_notfound demoFsys ["m"] { libraries := [], items := [] } [] 5).1.mpr
      (by intro l hl; exact absurd hl (List.not_mem_nil l)),
   fun h =>
    (by decide :
      ¬ demoLib.id ≠ 1)
      ((scan_ingest_only_notfound demoFsys ["m"] demoDB [] 1).1.mp h demoLib
        (by simp [demoDB]))⟩

/-- C6: deleting a library removes exactly its N owned items (membership
and count) together with the library record, and deleting a nonexistent
id fails NotFound without producing any new store state.  The library
ids are assumed pairwise distinct, as the store generates them. -/
theorem deleteLibrary_cascade :
    ∀ (db : DB) (id : Nat),
      (db.libraries.map (fun l => l.id)).Nodup →
      ((∀ l ∈ db.libraries, l.id ≠ id) → deleteLibrary db id = .error .notFound) ∧
      (∀ lib ∈ db.libraries, lib.id = id →
        ∃ db2, deleteLibrary db id = .ok db2 ∧
          (∀ it : Item, it ∈ db2.items ↔ (it ∈ db.items ∧ it.libraryId ≠ id)) ∧
          db2.items.length + db.items.countP (fun it => it.libraryId = id) =
            db.items.length ∧
          (∀ l : Library, l ∈ db2.libraries ↔ (l ∈ db.libraries ∧ l.id ≠ id)) ∧
          db2.libraries.length + 1 = db.libraries.length) := by
  intro db id hnd
  constructor
  · intro hall
    have hnone : db.libraries.find? (fun l => l.id = id) = none :=
      List.find?_eq_none.mpr (fun l hl => by simpa using hall l hl)
    rw [deleteLibrary, hnone]
  · intro lib hlib hid
    have hsome : (db.libraries.find? (fun l => l.id = id)).isSome := by
      rw [List.find?_isSome]
      exact ⟨lib, hlib, by simpa using hid⟩
    obtain ⟨w, hw⟩ := Option.isSome_iff_exists.mp hsome
    refine ⟨_, by rw [deleteLibrary, hw], ?_, ?_, ?_, ?_⟩
    · intro it
      simp [List.mem_filter]
    · exact length_filter_not_add_countP (fun it => it.libraryId = id) db.items
    · intro l
      rw [eraseP_eq_filter_of_nodup_ids db.libraries id hnd]
      simp [List.mem_filter]
    · rw [eraseP_eq_filter_of_nodup_ids db.libraries id hnd]
      have := length_filter_not_add_countP (fun l => l.id = id) db.libraries
      rw [countP_id_eq_one db.libraries id lib hnd hlib hid] at this
      exact this

/-- Witness for C6: deleting library 1 from a two-library store removes
its item and record; deleting an absent id fails NotFound. -/
theorem deleteLibrary_cascade_witness :
    (∃ db2,
      deleteLibrary
          ⟨[demoLib, ⟨2, "Tv", ["m"]⟩],
           [demoItem, ⟨"b.mp4", ["m", "b.mp4"], 7, none, 2⟩]⟩ 1 = .ok db2 ∧
        (∀ it : Item, it ∈ db2.items ↔
          (it ∈ [demoItem, ⟨"b.mp4", ["m", "b.mp4"], 7, none, 2⟩] ∧ it.libraryId ≠ 1)) ∧
        db2.items.length +
            ([demoItem, ⟨"b.mp4", ["m", "b.mp4"], 7, none, 2⟩].countP
              (fun it => it.libraryId = 1)) =
          [demoItem, ⟨"b.mp4", ["m", "b.mp4"], 7, none, 2⟩].length ∧
        (∀ l : Library, l ∈ db2.libraries ↔
          (l ∈ [demoLib, ⟨2, "Tv", ["m"]⟩] ∧ l.id ≠ 1)) ∧
        db2.libraries.length + 1 = [demoLib, ⟨2, "Tv", ["m"]⟩].length) ∧
    deleteLibrary demoDB 9 = .error .notFound :=
  ⟨(deleteLibrary_cascade
      ⟨[demoLib, ⟨2, "Tv", ["m"]⟩],
       [demoItem, ⟨"b.mp4", ["m", "b.mp4"], 7, none, 2⟩]⟩ 1 (by decide)).2
      demoLib (by simp [demoLib]) (by decide),
   (deleteLibrary_cascade demoDB 9 (by decide)).1 (by decide)⟩

/-- C4 (amended): createLibrary succeeds exactly when the name is
unchanged by sanitization, no existing library shares the name, and the
resolved path is an existing directory; the failures are InvalidInput
(BadRequest) for a sanitization-changed name, then Conflict for a
duplicate name, then NotFound for a bad path, checked in that order. -/
theorem createLibrary_characterization :
    ∀ (san : String → String) (root : FsNode) (base : List String) (db : DB)
      (newId : Nat) (name : String) (pathStr : FsPath),
      ((∃ res, createLibrary san root base db newId name pathStr = .ok res) ↔
        (san name = name ∧ (∀ l ∈ db.libraries, l.name ≠ name) ∧
          isExistingDirB root (resolve base pathStr) = true)) ∧
      (san name ≠ name →
        createLibrary san root base db newId name pathStr = .error .badRequest) ∧
      (san name = name → ∀ lib ∈ db.libraries, lib.name = name →
        createLibrary san root base db newId name pathStr = .error .conflict) ∧
      (san name = name → (∀ l ∈ db.libraries, l.name ≠ name) →
        isExistingDirB root (resolve base pathStr) = false →
        createLibrary san root base db newId name pathStr = .error .notFound) := by
  intro san root base db newId name pathStr
  by_cases hsan : san name = name
  · cases hfind : db.libraries.find? (fun l => l.name = san name) with
    | some w =>
      have hw : w ∈ db.libraries := List.mem_of_find?_eq_some hfind
      have hwname : w.name = name := by
        have := List.find?_some hfind
        simp only [decide_eq_true_eq] at this
        rw [this, hsan]
      have hres : createLibrary san root base db newId name pathStr = .error .conflict := by
        rw [createLibrary, if_neg (by simp [hsan]), hfind]
      refine ⟨?_, ?_, ?_, ?_⟩
      · constructor
        · rintro ⟨res, hok⟩; rw [hres] at hok; cases hok
        · rintro ⟨_, hnone, _⟩; exact absurd hwname (hnone w hw)
      · intro h; exact absurd hsan h
      · intro _ lib hlib hname; exact hres
      · intro _ hnone _; exact absurd hwname (hnone w hw)
    | none =>
      have hnone : ∀ l ∈ db.libraries, l.name ≠ name := by
        intro l hl
        have := List.find?_eq_none.mp hfind l hl
        simpa [hsan] using this
      by_cases hdir : isExistingDirB root (resolve base pathStr) = true
      · have hres : createLibrary san root base db newId name pathStr =
            .ok ({ db with libraries := db.libraries ++
                    [{ id := newId, name := san name, path := resolve base pathStr }] },
                 { id := newId, name := san name, path := resolve base pathStr }) := by
          rw [createLibrary, if_neg (by simp [hsan]), hfind, if_pos hdir]
        refine ⟨?_, ?_, ?_, ?_⟩
        · exact ⟨fun _ => ⟨hsan, hnone, hdir⟩, fun _ => ⟨_, hres⟩⟩
        · intro h; exact absurd hsan h
        · intro _ lib hlib hname; exact absurd hname (hnone lib hlib)
        · intro _ _ hdirF; rw [hdirF] at hdir; cases hdir
      · have hdirF : isExistingDirB root (resolve base pathStr) = false := by
          revert hdir; cases isExistingDirB root (resolve base pathStr) <;> simp
        have hres : createLibrary san root base db newId name pathStr =
            .error .notFound := by
          rw [createLibrary, if_neg (by simp [hsan]), hfind, if_neg (by simp [hdirF])]
        refine ⟨?_, ?_, ?_, ?_⟩
        · constructor
          · rintro ⟨res, hok⟩; rw [hres] at hok; cases hok
          · rintro ⟨_, _, hdir2⟩; rw [hdir2] at hdirF; cases hdirF
        · intro h; exact absurd hsan h
        · intro _ lib hlib hname; exact absurd hname (hnone lib hlib)
        · intro _ _ _; exact hres
  · have hres : createLibrary san root base db newId name pathStr =
        .error .badRequest := by
      rw [createLibrary, if_pos hsan]
    refine ⟨?_, ?_, ?_, ?_⟩
    · constructor
      · rintro ⟨res, hok⟩; rw [hres] at hok; cases hok
      · rintro ⟨h1, _, _⟩; exact absurd h1 hsan
    · intro _; exact hres
    · intro h1; exact absurd h1 hsan
    · intro h1; exact absurd h1 hsan

/-- Counterexample to C4 as stated: a name unchanged by sanitization and
not used by any existing library, yet createLibrary does not succeed —
it fails NotFound because the requested path is not an existing
directory.  The claimed "succeeds if and only if" is therefore false. -/
theorem createLibrary_claim_cex :
    ((fun s => s) "Movies" = "Movies") ∧
    ({ libraries := [], items := [] } : DB).libraries = [] ∧
    createLibrary (fun s => s) demoRoot ["m"] { libraries := [], items := [] } 7 "Movies"
      ⟨false, ["nope"]⟩ = .error .notFound :=
  ⟨rfl, rfl, by decide⟩

/-- Witness for C4 (amended) at concrete inputs: the three failure modes
and the success mode all realized. -/
theorem createLibrary_characterization_witness :
    createLibrary (fun _ => "x") demoRoot ["m"] demoDB 7 "Movies" ⟨false, ["lib"]⟩ =
      .error .badRequest ∧
    createLibrary (fun s => s) demoRoot ["m"] demoDB 7 "Movies" ⟨false, ["lib"]⟩ =
      .error .conflict ∧
    createLibrary (fun s => s) demoRoot ["m"] demoDB 7 "Shows" ⟨false, ["nope"]⟩ =
      .error .notFound ∧
    (∃ res, createLibrary (fun s => s) demoRoot ["m"] demoDB 7 "Shows" ⟨false, ["lib"]⟩ =
      .ok res) :=
  ⟨(createLibrary_characterization (fun _ => "x") demoRoot ["m"] demoDB 7 "Movies"
      ⟨false, ["lib"]⟩).2.1 (by decide),
   (createLibrary_characterization (fun s => s) demoRoot ["m"] demoDB 7 "Movies"
      ⟨false, ["lib"]⟩).2.2.1 rfl demoLib (by simp [demoDB]) (by decide),
   (createLibrary_characterization (fun s => s) demoRoot ["m"] demoDB 7 "Shows"
      ⟨false, ["nope"]⟩).2.2.2 rfl (by decide) (by decide),
   (createLibrary_characterization (fun s => s) demoRoot ["m"] demoDB 7 "Shows"
      ⟨false, ["lib"]⟩).1.mpr ⟨rfl, by decide, by decide⟩⟩

/-- C2: when every supported media file under a library's root is already
persisted as an item with that exact filepath, rescanning the library
creates no items, performs no write, and returns the store unchanged (so
every existing item's size and duration are untouched). -/
theorem scan_idempotent :
    ∀ (fsys : Fsys) (db : DB) (libId : Nat) (lib : Library),
      db.libraries.find? (fun l => l.id = libId) = some lib →
      (∀ p ∈ supportedUnder fsys lib.path, ∃ it ∈ db.items, it.filepath = p) →
      scanLibrary fsys db libId = .ok (db, []) := by
  intro fsys db libId lib hfind hall
  rw [scanLibrary, hfind]
  cases hlook : lookupPath fsys.root lib.path with
  | none => simp [hlook]
  | some node =>
    have hempty : traverseNode db fsys lib.id lib.path node = [] :=
      traverseNode_empty db fsys lib.id lib.path node
        (fun p hp => hall p (by rw [supportedUnder, hlook]; exact hp))
    simp [hlook, hempty]

/-- Witness for C2: rescanning the demo library after its single file is
indexed changes nothing. -/
theorem scan_idempotent_witness :
    scanLibrary demoFsys { demoDB with items := [demoItem] } 1 =
      .ok ({ demoDB with items := [demoItem] }, []) :=
  scan_idempotent demoFsys { demoDB with items := [demoItem] } 1 demoLib (by rfl)
    (by decide)

/-- C5: duration conversion floors (5425.7 s renders as 01:30:25 and 0 s
as 00:00:00), and a probe failure during scanning still creates the item,
with an absent duration and no error surfaced. -/
theorem duration_floor_and_probe_failure :
    secondsToHMS 5425.7 = "01:30:25" ∧
    secondsToHMS 0 = "00:00:00" ∧
    (∀ (fsys : Fsys) (db : DB) (libId : Nat) (lib : Library) (nm : String) (sz : Nat),
      db.libraries.find? (fun l => l.id = libId) = some lib →
      lookupPath fsys.root lib.path =
        some (.dir true true (.cons nm (.file true sz) .nil)) →
      fsys.probe (lib.path ++ [nm]) = none →
      supportedB nm = true →
      (∀ it ∈ db.items, it.filepath ≠ lib.path ++ [nm]) →
      scanLibrary fsys db libId =
        .ok ({ db with items := db.items ++ [⟨nm, lib.path ++ [nm], sz, none, lib.id⟩] },
             [⟨nm, lib.path ++ [nm], sz, none, lib.id⟩])) := by
  refine ⟨?_, ?_, ?_⟩
  · have t1 : jsTrunc ((54257 : ℚ) / 10 / 3600) = 1 := by
      rw [jsTrunc, if_neg (by norm_num), Int.floor_eq_iff]
      constructor <;> norm_num
    have t2 : jsTrunc ((54257 : ℚ) / 10 / 60) = 90 := by
      rw [jsTrunc, if_neg (by norm_num), Int.floor_eq_iff]
      constructor <;> norm_num
    have m1 : jsMod ((54257 : ℚ) / 10) 3600 = 18257 / 10 := by
      rw [jsMod, t1]; norm_num
    have m2 : jsMod ((54257 : ℚ) / 10) 60 = 257 / 10 := by
      rw [jsMod, t2]; norm_num
    have f1 : Int.floor ((54257 : ℚ) / 10 / 3600) = 1 := by
      rw [Int.floor_eq_iff]; constructor <;> norm_num
    have f2 : Int.floor ((18257 : ℚ) / 10 / 60) = 30 := by
      rw [Int.floor_eq_iff]; constructor <;> norm_num
    have f3 : Int.floor ((257 : ℚ) / 10) = 25 := by
      rw [Int.floor_eq_iff]; constructor <;> norm_num
    have hq : (5425.7 : ℚ) = 54257 / 10 := by norm_num
    rw [hq]
    show padTwo (Int.floor ((54257 : ℚ) / 10 / 3600)) ++ ":" ++
        padTwo (Int.floor (jsMod ((54257 : ℚ) / 10) 3600 / 60)) ++ ":" ++
        padTwo (Int.floor (jsMod ((54257 : ℚ) / 10) 60)) = "01:30:25"
    rw [m1, m2, f1, f2, f3]
    decide
  · have t0 : jsTrunc ((0 : ℚ) / 3600) = 0 := by
      rw [jsTrunc, if_neg (by norm_num)]; norm_num
    have t0b : jsTrunc ((0 : ℚ) / 60) = 0 := by
      rw [jsTrunc, if_neg (by norm_num)]; norm_num
    have m1 : jsMod (0 : ℚ) 3600 = 0 := by rw [jsMod, t0]; norm_num
    have m2 : jsMod (0 : ℚ) 60 = 0 := by rw [jsMod, t0b]; norm_num
    show padTwo (Int.floor ((0 : ℚ) / 3600)) ++ ":" ++
        padTwo (Int.floor (jsMod (0 : ℚ) 3600 / 60)) ++ ":" ++
        padTwo (Int.floor (jsMod (0 : ℚ) 60)) = "00:00:00"
    rw [m1, m2]
    norm_num
    decide
  · intro fsys db libId lib nm sz hfind hlook hprobe hsup hnew
    have hdbfind : db.items.find? (fun it => it.filepath = lib.path ++ [nm]) = none :=
      List.find?_eq_none.mpr (fun it hit => by simpa using hnew it hit)
    rw [scanLibrary, hfind]
    have htrav : traverseNode db fsys lib.id lib.path
        (.dir true true (.cons nm (.file true sz) .nil)) =
        [⟨nm, lib.path ++ [nm], sz, none, lib.id⟩] := by
      simp [traverseNode_dir, traverseEntries_cons_file, traverseEntries_nil, hsup,
        hdbfind, hprobe]
    simp [hlook, htrav]

/-- Witness for C5 at the demo library whose probe always fails: the item
is created with no duration and no error. -/
theorem duration_floor_and_probe_failure_witness :
    scanLibrary demoFsys demoDB 1 =
      .ok ({ demoDB with items := demoDB.items ++ [⟨"a.mp4", ["m", "lib", "a.mp4"], 100,
              none, 1⟩] },
           [⟨"a.mp4", ["m", "lib", "a.mp4"], 100, none, 1⟩]) :=
  duration_floor_and_probe_failure.2.2 demoFsys demoDB 1 demoLib "a.mp4" 100 (by rfl)
    (by rfl) (by rfl) (by decide) (by simp [demoDB])

/-- An uploaded file used twice in one batch. -/
def dupFile : UploadFile := ⟨⟨false, ["a.mp4"]⟩, ["a.mp4"], 5⟩

/-- The item each copy of dupFile produces. -/
def dupItem : Item := ⟨"a.mp4", ["m", "a.mp4"], 5, none, 1⟩

/-- Counterexample to C3 as stated: uploading the same filename twice in
one batch persists two items with identical filepaths, because the
find-before-insert check consults only the already-persisted items and
never the batch being accumulated. -/
theorem upload_duplicate_batch_cex :
    processUploadedFiles demoFsys ["m"] demoDB [dupFile, dupFile] 1 =
      .ok ({ demoDB with items := [dupItem, dupItem] }, [dupItem, dupItem]) ∧
    ¬ (([dupItem, dupItem].map (fun it => it.filepath)).Nodup) :=
  ⟨by decide, by decide⟩

/-- C3 (amended): scanLibrary (on a filesystem with pairwise-distinct
sibling names) never persists an item whose filepath equals that of an
already-persisted item or of another item in the same batch, so filepath
uniqueness is preserved by scans; processUploadedFiles guarantees only
the check against already-persisted items, and only at the pre-fallback
resolved path: when the file's target directory exists (no fallback
rerouting) the created item collides with no persisted item.  Within one
upload batch duplicates are possible (see upload_duplicate_batch_cex). -/
theorem indexing_filepath_uniqueness :
    ∀ (fsys : Fsys) (db : DB) (libId : Nat) (db2 : DB) (batch : List Item),
      wfNode fsys.root = true →
      scanLibrary fsys db libId = .ok (db2, batch) →
      ((batch.map (fun it => it.filepath)).Nodup ∧
       (∀ it ∈ batch, ∀ it2 ∈ db.items, it2.filepath ≠ it.filepath) ∧
       ((db.items.map (fun it => it.filepath)).Nodup →
         (db2.items.map (fun it => it.filepath)).Nodup)) ∧
      (∀ (base : List String) (f : UploadFile) (it : Item),
        processOneFile fsys base db libId f = some it →
        existsSyncB fsys.root ((resolve base (sanitizeRelPath f.filename)).dropLast) = true →
        ∀ it2 ∈ db.items, it2.filepath ≠ it.filepath) := by
  intro fsys db libId db2 batch hwf hscan
  constructor
  · simp only [scanLibrary] at hscan
    cases hfind : db.libraries.find? (fun l => l.id = libId) with
    | none => rw [hfind] at hscan; cases hscan
    | some lib =>
      rw [hfind] at hscan
      cases hlook : lookupPath fsys.root lib.path with
      | none =>
        simp only [hlook, Except.ok.injEq, Prod.mk.injEq] at hscan
        obtain ⟨hdb2, hbatch⟩ := hscan
        subst hbatch
        refine ⟨by simp, by simp, ?_⟩
        intro hnd
        simp only [List.isEmpty_nil, if_pos] at hdb2
        rw [← hdb2]
        exact hnd
      | some node =>
        simp only [hlook, Except.ok.injEq, Prod.mk.injEq] at hscan
        obtain ⟨hdb2, hbatch⟩ := hscan
        have hwfnode : wfNode node = true := lookupPath_wf fsys.root lib.path node hwf hlook
        have hnodup : ((traverseNode db fsys lib.id lib.path node).map
            (fun it => it.filepath)).Nodup :=
          traverseNode_nodup db fsys lib.id lib.path node hwfnode
        have hfresh := traverseNode_fresh db fsys lib.id lib.path node
        subst hbatch
        refine ⟨hnodup, hfresh, ?_⟩
        intro hnd
        by_cases hemp : (traverseNode db fsys lib.id lib.path node).isEmpty = true
        · rw [if_pos hemp] at hdb2
          rw [← hdb2]
          exact hnd
        · rw [if_neg hemp] at hdb2
          rw [← hdb2]
          simp only [List.map_append]
          rw [List.nodup_append]
          refine ⟨hnd, hnodup, ?_⟩
          intro a ha hb
          simp only [List.mem_map] at ha hb
          obtain ⟨it2, hit2, hfp2⟩ := ha
          obtain ⟨it1, hit1, hfp1⟩ := hb
          exact hfresh it1 hit1 it2 hit2 (hfp2.trans hfp1.symm)
  · intro base f it hp hdir it2 hit2
    cases hfind2 : db.items.find?
        (fun w => w.filepath = resolve base (sanitizeRelPath f.filename)) with
    | some w =>
      simp only [processOneFile, hfind2] at hp
      cases hp
    | none =>
      simp only [processOneFile, hfind2, hdir, if_true] at hp
      cases hw : fsys.writeOk (resolve base (sanitizeRelPath f.filename)) with
      | false =>
        simp only [hw, Bool.false_eq_true, if_false] at hp
        cases hp
      | true =>
        simp only [hw, if_true, Option.some.injEq] at hp
        have hfp : it.filepath = resolve base (sanitizeRelPath f.filename) := by
          rw [← hp]
        rw [hfp]
        have := List.find?_eq_none.mp hfind2 it2 hit2
        simpa using this

/-- Witness for C3 (amended): the demo scan batch has pairwise-distinct
filepaths fresh relative to the store, and uniqueness is preserved. -/
theorem indexing_filepath_uniqueness_witness :
    ([demoItem].map (fun it => it.filepath)).Nodup ∧
    (∀ it ∈ [demoItem], ∀ it2 ∈ demoDB.items, it2.filepath ≠ it.filepath) ∧
    ((demoDB.items.map (fun it => it.filepath)).Nodup →
      (({ demoDB with items := [demoItem] } : DB).items.map
        (fun it => it.filepath)).Nodup) :=
  (indexing_filepath_uniqueness demoFsys demoDB 1 { demoDB with items := [demoItem] }
    [demoItem] (by decide) (by decide)).1

/-- C1: for an uploaded file whose supplied filename is relative (in
particular any number of leading "../" segments), the sanitization step
strips every leading parent segment — no ".." survives normalization
plus the replace — and whenever the file is actually ingested, the path
the bytes are written to and stored in the item (fallback directory
included) lies inside the base directory tree.  The base directory is an
existing directory with normalized segments, as the constructor
guarantees. -/
theorem upload_traversal_confined :
    ∀ (fsys : Fsys) (base : List String) (db : DB) (libId : Nat) (f : UploadFile),
      (∀ s ∈ base, cleanSeg s = true) →
      isExistingDirB fsys.root base = true →
      f.filename.absolute = false →
      (∀ s ∈ (sanitizeRelPath f.filename).segs, s ≠ "..") ∧
      (∀ it, processOneFile fsys base db libId f = some it →
        startsWith base it.filepath = true) := by
  intro fsys base db libId f hbase hdir hrel
  have hclean := sanitizeRelPath_clean f.filename hrel
  constructor
  · intro s hs hdd
    have := hclean s hs
    rw [hdd] at this
    simp [cleanSeg] at this
  · intro it hp
    have htar : resolve base (sanitizeRelPath f.filename) =
        base ++ (sanitizeRelPath f.filename).segs :=
      resolve_clean base _ hbase (sanitizeRelPath_rel f.filename hrel) hclean
    cases hfind2 : db.items.find?
        (fun w => w.filepath = resolve base (sanitizeRelPath f.filename)) with
    | some w =>
      simp only [processOneFile, hfind2] at hp
      cases hp
    | none =>
      simp only [processOneFile, hfind2] at hp
      by_cases hex : existsSyncB fsys.root
          ((resolve base (sanitizeRelPath f.filename)).dropLast) = true
      · rw [if_pos hex] at hp
        cases hw : fsys.writeOk (resolve base (sanitizeRelPath f.filename)) with
        | false =>
          simp only [hw, Bool.false_eq_true, if_false] at hp
          cases hp
        | true =>
          simp only [hw, if_true, Option.some.injEq] at hp
          have hfp : it.filepath = resolve base (sanitizeRelPath f.filename) := by
            rw [← hp]
          rw [hfp, htar]
          exact startsWith_append base _
      · rw [if_neg hex] at hp
        cases hfb : findExistingDir fsys.root
            ((resolve base (sanitizeRelPath f.filename)).dropLast) with
        | none =>
          simp only [hfb] at hp
          cases hp
        | some fb =>
          simp only [hfb] at hp
          cases hcs2 : (sanitizeRelPath f.filename).segs with
          | nil =>
            exfalso
            have h1 : (resolve base (sanitizeRelPath f.filename)).dropLast =
                base.dropLast := by
              rw [htar, hcs2, List.append_nil]
            have hlookb : (lookupPath fsys.root base).isSome = true := by
              rw [isExistingDirB] at hdir
              cases hlb : lookupPath fsys.root base with
              | none => rw [hlb] at hdir; cases hdir
              | some n => simp
            have h2 := lookupPath_dropLast_isSome fsys.root base hlookb
            exact hex (by rw [h1]; exact h2)
          | cons c cs2 =>
            have hfd : (resolve base (sanitizeRelPath f.filename)).dropLast =
                base ++ (c :: cs2).dropLast := by
              rw [htar, hcs2, List.dropLast_append_of_ne_nil base (by simp)]
            have hfdclean : ∀ s ∈ base ++ (c :: cs2).dropLast, cleanSeg s = true := by
              intro s hs
              rcases List.mem_append.mp hs with h | h
              · exact hbase s h
              · exact hclean s (by rw [hcs2]; exact List.dropLast_subset _ h)
            have hfrom : findExistingDirFrom fsys.root
                (base ++ (c :: cs2).dropLast) = some fb := by
              have := hfb
              rw [findExistingDir, hfd, normAbs_clean_id _ hfdclean] at this
              exact this
            have hfb2 : startsWith base fb = true :=
              findExistingDirFrom_inside fsys.root base hdir
                (base ++ (c :: cs2).dropLast) fb (startsWith_append base _) hfrom
            cases hw : fsys.writeOk
                (fb ++ [basenameOf (resolve base (sanitizeRelPath f.filename))]) with
            | false =>
              simp only [hw, Bool.false_eq_true, if_false] at hp
              cases hp
            | true =>
              simp only [hw, if_true, Option.some.injEq] at hp
              have hfp : it.filepath =
                  fb ++ [basenameOf (resolve base (sanitizeRelPath f.filename))] := by
                rw [← hp]
              rw [hfp]
              exact startsWith_concat base fb _ hfb2

/-- Witness for C1: a filename with three leading "../" segments is
ingested at a path inside the base directory. -/
theorem upload_traversal_confined_witness :
    startsWith ["m"] (["m", "x.mp4"] : List String) = true :=
  (upload_traversal_confined demoFsys ["m"] demoDB 1
      ⟨⟨false, ["..", "..", "..", "x.mp4"]⟩, ["x.mp4"], 5⟩ (by decide) (by decide) rfl).2
    ⟨"x.mp4", ["m", "x.mp4"], 5, none, 1⟩ (by decide)

/-- C9: an uploaded file whose supplied filename is absolute passes the
sanitization step unchanged apart from normalization (the stripping
regex matches only leading relative parent segments, and an absolute
path's string starts with the separator), the resolution step ignores
the base directory and yields the normalized absolute path itself, and
when that path's directory exists (so the fallback does not reroute) the
stored item's filepath — the write target — is that absolute path, which
need not lie inside the base directory tree (last conjunct). -/
theorem upload_absolute_bypass :
    ∀ (fsys : Fsys) (base : List String) (db : DB) (libId : Nat) (f : UploadFile),
      f.filename.absolute = true →
      sanitizeRelPath f.filename = normalizePath f.filename ∧
      resolve base (sanitizeRelPath f.filename) = normAbs f.filename.segs ∧
      (existsSyncB fsys.root ((normAbs f.filename.segs).dropLast) = true →
        ∀ it, processOneFile fsys base db libId f = some it →
          it.filepath = normAbs f.filename.segs) ∧
      ¬ (startsWith ["m"] (resolve ["m"] ⟨true, ["etc", "x.mp4"]⟩) = true) := by
  intro fsys base db libId f habs
  have h1 : sanitizeRelPath f.filename = normalizePath f.filename := by
    rw [sanitizeRelPath, normalizePath]
    simp [habs]
  have hcleanN : ∀ s ∈ normAbs f.filename.segs, cleanSeg s = true :=
    normCore_abs_clean f.filename.segs [] (by simp)
  have h2 : resolve base (sanitizeRelPath f.filename) = normAbs f.filename.segs := by
    rw [h1, resolve, normalizePath]
    simp only [habs, if_pos]
    exact normAbs_clean_id _ hcleanN
  refine ⟨h1, h2, ?_, by decide⟩
  intro hex it hp
  cases hfind2 : db.items.find?
      (fun w => w.filepath = resolve base (sanitizeRelPath f.filename)) with
  | some w =>
    simp only [processOneFile, hfind2] at hp
    cases hp
  | none =>
    simp only [processOneFile, hfind2] at hp
    rw [h2] at hp
    rw [if_pos hex] at hp
    cases hw : fsys.writeOk (normAbs f.filename.segs) with
    | false =>
      simp only [hw, Bool.false_eq_true, if_false] at hp
      cases hp
    | true =>
      simp only [hw, if_true, Option.some.injEq] at hp
      rw [← hp]

/-- Witness for C9: the absolute filename /etc/x.mp4 is stored at
/etc/x.mp4, which is outside the base directory /m. -/
theorem upload_absolute_bypass_witness :
    (⟨"x.mp4", ["etc", "x.mp4"], 5, none, 1⟩ : Item).filepath =
      normAbs ["etc", "x.mp4"] ∧
    ¬ (startsWith ["m"] (resolve ["m"] ⟨true, ["etc", "x.mp4"]⟩) = true) :=
  ⟨(upload_absolute_bypass demoFsys ["m"] demoDB 1
      ⟨⟨true, ["etc", "x.mp4"]⟩, ["x.mp4"], 5⟩ rfl).2.2.1 (by decide)
      ⟨"x.mp4", ["etc", "x.mp4"], 5, none, 1⟩ (by decide),
   (upload_absolute_bypass demoFsys ["m"] demoDB 1
      ⟨⟨true, ["etc", "x.mp4"]⟩, ["x.mp4"], 5⟩ rfl).2.2.2⟩
